import Mathlib

/-!
Shallow embedding of the offline-resilience layer of the pwa-assets
repository: the two service-worker variants (v2.0 in
frontend/service-worker.js, v2.1 embedded in pwa-main.js) and the
LotusDB persistence module of pwa-main.js (Store, SyncEngine).

Conventions of the embedding:
* network responses are records of status, body and the value of the
  date header (milliseconds since epoch);
* a byte cache is an association list in insertion order, oldest first,
  mirroring the order of Cache.keys();
* the outcome of a fetch is passed to each strategy as an explicit
  parameter, success carrying the response and failure standing for a
  rejected fetch;
* IndexedDB records are association lists from field names to values,
  mirroring plain JS objects; per-operation transactions are modelled by
  explicit state passing;
* the in-process read-through memoryCache of LotusDB is coherent with
  the store inside a single execution context, so reads are modelled
  directly against the store.
-/

-- ═══════════════════════════════════════════════════════════════════
-- JS string primitives (semantics of startsWith, toLowerCase, split,
-- trim and includes, over the character list of the string)
-- ═══════════════════════════════════════════════════════════════════

/-- Models JS String.prototype.startsWith. -/
def strStartsWith (s p : String) : Bool := p.data.isPrefixOf s.data

/-- Models JS String.prototype.toLowerCase (ASCII range). -/
def strToLower (s : String) : String := String.mk (s.data.map Char.toLower)

/-- Helper for jsSplitSpace: accumulates the current chunk in reverse. -/
def splitSpaceAux : List Char → List Char → List String
  | [], acc => [String.mk acc.reverse]
  | c :: rest, acc =>
    if c = ' ' then String.mk acc.reverse :: splitSpaceAux rest []
    else splitSpaceAux rest (c :: acc)

/-- Models JS String.prototype.split with separator a single space. -/
def jsSplitSpace (s : String) : List String := splitSpaceAux s.data []

def isSpaceChar (c : Char) : Bool := c = ' ' || c = '\t' || c = '\n' || c = '\r'

/-- Models JS String.prototype.trim. -/
def jsTrim (s : String) : String :=
  String.mk (((s.data.dropWhile isSpaceChar).reverse.dropWhile isSpaceChar).reverse)

/-- Helper for strContainsJS: contiguous-sublist test. -/
def infixCheck : List Char → List Char → Bool
  | n, [] => n.isEmpty
  | n, h :: t => n.isPrefixOf (h :: t) || infixCheck n t

/-- Models JS String.prototype.includes: hay contains needle. -/
def strContainsJS (hay needle : String) : Bool := infixCheck needle.data hay.data

-- ═══════════════════════════════════════════════════════════════════
-- Responses, fetch outcomes, byte caches
-- ═══════════════════════════════════════════════════════════════════

structure Response where
  status : Nat
  body : String
  date : Nat
deriving DecidableEq, Repr

/-- Models the Response.ok getter: status in the range 200 to 299. -/
def Response.ok (r : Response) : Bool := 200 ≤ r.status && r.status ≤ 299

inductive FetchOutcome where
  | success (r : Response)
  | failure
deriving DecidableEq, Repr

/-- A cache namespace content: request key to response, insertion order,
oldest first (the order Cache.keys() enumerates). -/
abbrev Cache := List (String × Response)

def cacheMatch (c : Cache) (k : String) : Option Response :=
  (c.find? (fun e => e.1 == k)).map (fun e => e.2)

/-- Models Cache.put: any entry for the key is replaced, the new entry
goes to the end of the insertion order. -/
def cachePut (c : Cache) (k : String) (r : Response) : Cache :=
  c.filter (fun e => !(e.1 == k)) ++ [(k, r)]

def cacheKeys (c : Cache) : List String := c.map (fun e => e.1)

/-- The whole CacheStorage: named caches, as enumerated by caches.keys(). -/
abbrev CacheStorage := List (String × Cache)

/-- Models caches.match: search every cache in order for the request. -/
def cachesMatchAll : CacheStorage → String → Option Response
  | [], _ => none
  | (_, c) :: rest, k =>
    match cacheMatch c k with
    | some r => some r
    | none => cachesMatchAll rest k

/-- Models caches.open(name) followed by cache.put. -/
def putInCache : CacheStorage → String → String → Response → CacheStorage
  | [], nm, k, r => [(nm, cachePut [] k r)]
  | (n, c) :: rest, nm, k, r =>
    if n == nm then (n, cachePut c k r) :: rest
    else (n, c) :: putInCache rest nm k r

-- ═══════════════════════════════════════════════════════════════════
-- Service worker v2.0 (src/frontend/service-worker.js): configuration
-- ═══════════════════════════════════════════════════════════════════

def versionV20 : String := "2.0.0"
def cachePfxV20 : String := "lotus-glass-pwa"
def cacheStaticV20 : String := cachePfxV20 ++ "-static-v" ++ versionV20
def cacheDynamicV20 : String := cachePfxV20 ++ "-dynamic-v" ++ versionV20
def cacheImagesV20 : String := cachePfxV20 ++ "-images-v" ++ versionV20
def cacheApiV20 : String := cachePfxV20 ++ "-api-v" ++ versionV20
def cacheFontsV20 : String := cachePfxV20 ++ "-fonts-v" ++ versionV20

/-- The CACHES object: every namespace of the current version. -/
def cachesV20 : List String :=
  [cacheStaticV20, cacheDynamicV20, cacheImagesV20, cacheApiV20, cacheFontsV20]

/-- CACHE_LIMITS.DYNAMIC. -/
def cacheLimitDynamic : Nat := 50
/-- CACHE_LIMITS.IMAGES. -/
def cacheLimitImages : Nat := 100
/-- CACHE_LIMITS.API. -/
def cacheLimitApi : Nat := 30

/-- CACHE_DURATIONS.API in milliseconds. -/
def durationApiMs : Nat := 5 * 60 * 1000
/-- CACHE_DURATIONS.IMAGES in milliseconds. -/
def durationImagesMs : Nat := 7 * 24 * 60 * 60 * 1000
/-- CACHE_DURATIONS.STATIC in milliseconds. -/
def durationStaticMs : Nat := 30 * 24 * 60 * 60 * 1000

/-- The activate handler of v2.0: from the existing cache names, those
starting with the prefix and not listed in the CACHES object are
deleted. Returns the deleted names. -/
def activateDeleteV20 (names : List String) : List String :=
  names.filter (fun n => strStartsWith n cachePfxV20 && !(cachesV20.contains n))

-- ═══════════════════════════════════════════════════════════════════
-- Service worker v2.0: strategies
-- ═══════════════════════════════════════════════════════════════════

/-- The synthetic response built on total network and cache failure. -/
def resp503 : Response := ⟨503, "Network error", 0⟩

/-- networkFirstStrategy of v2.0. It always operates on the DYNAMIC
cache; isNavigate models request.mode equal to navigate. Returns the
response handed to the caller and the DYNAMIC cache afterwards. -/
def networkFirstStrategy (dynCache : Cache) (req : String) (isNavigate : Bool)
    (fetched : FetchOutcome) : Response × Cache :=
  match fetched with
  | .success r => (r, if r.ok then cachePut dynCache req r else dynCache)
  | .failure =>
    match cacheMatch dynCache req with
    | some cached => (cached, dynCache)
    | none =>
      if isNavigate then
        match cacheMatch dynCache "/offline.html" with
        | some off => (off, dynCache)
        | none => (resp503, dynCache)
      else (resp503, dynCache)

/-- limitCacheSize of v2.0: when the cache holds more than maxItems
entries, the first (oldest-inserted) length minus maxItems keys are
deleted. -/
def limitCacheSize (cache : Cache) (maxItems : Nat) : Cache :=
  if cache.length > maxItems then
    let victims := (cacheKeys cache).take (cache.length - maxItems)
    cache.filter (fun e => !(victims.contains e.1))
  else cache

/-- The maxAge picked by cacheFirstStrategy: the IMAGES duration for the
images cache, the STATIC duration for every other cache name. -/
def maxAgeForV20 (cacheName : String) : Nat :=
  if cacheName == cacheImagesV20 then durationImagesMs else durationStaticMs

instance {ε α : Type} [DecidableEq ε] [DecidableEq α] : DecidableEq (Except ε α) := fun a b =>
  match a, b with
  | .error u, .error v =>
    if h : u = v then isTrue (by rw [h]) else isFalse (by intro hc; cases hc; exact h rfl)
  | .ok x, .ok y =>
    if h : x = y then isTrue (by rw [h]) else isFalse (by intro hc; cases hc; exact h rfl)
  | .error _, .ok _ => isFalse (by intro h; cases h)
  | .ok _, .error _ => isFalse (by intro h; cases h)

structure CacheFirstOut where
  result : Except Unit Response
  cacheAfter : Cache
  fetchCount : Nat
deriving DecidableEq, Repr

/-- cacheFirstStrategy of v2.0. A cached entry younger than maxAge is
returned with no fetch; otherwise the network is tried, a 2xx response
is stored and the cache size limited with CACHE_LIMITS.IMAGES; on fetch
failure the stale entry is returned if present, else the error
propagates. -/
def cacheFirstStrategy (cache : Cache) (cacheName req : String) (now : Nat)
    (fetched : FetchOutcome) : CacheFirstOut :=
  match cacheMatch cache req with
  | some cached =>
    if (now : Int) - (cached.date : Int) < (maxAgeForV20 cacheName : Int) then
      ⟨.ok cached, cache, 0⟩
    else
      match fetched with
      | .success r =>
        if r.ok then ⟨.ok r, limitCacheSize (cachePut cache req r) cacheLimitImages, 1⟩
        else ⟨.ok r, cache, 1⟩
      | .failure => ⟨.ok cached, cache, 1⟩
  | none =>
    match fetched with
    | .success r =>
      if r.ok then ⟨.ok r, limitCacheSize (cachePut cache req r) cacheLimitImages, 1⟩
      else ⟨.ok r, cache, 1⟩
    | .failure => ⟨.error (), cache, 1⟩

/-- staleWhileRevalidateStrategy of v2.0, on the STATIC cache. The first
component is what the caller receives: the cached entry when present,
else the value the background fetch resolves to (none models the
undefined that the swallowed failure resolves to). The second component
is the cache after the background fetch settles. -/
def staleWhileRevalidateStrategy (staticCache : Cache) (req : String)
    (fetched : FetchOutcome) : Option Response × Cache :=
  let cached := cacheMatch staticCache req
  let after :=
    match fetched with
    | .success r => if r.ok then cachePut staticCache req r else staticCache
    | .failure => staticCache
  match cached with
  | some c => (some c, after)
  | none =>
    match fetched with
    | .success r => (some r, after)
    | .failure => (none, after)

-- ═══════════════════════════════════════════════════════════════════
-- Service worker v2.0: background sync of pending orders
-- ═══════════════════════════════════════════════════════════════════

structure QueuedOrder where
  id : Nat
  payload : String
deriving DecidableEq, Repr

/-- removeFromIndexedDB on the pending-orders store, by id. -/
def removePendingOrder (pending : List QueuedOrder) (i : Nat) : List QueuedOrder :=
  pending.filter (fun o => !(o.id == i))

/-- The loop body of syncOrders: iterate over the snapshot read by
getAll, in creation order; on a delivered order (response.ok) the order
is removed from the store; on a failed delivery (non-2xx response or
rejected fetch, both caught) the loop moves on to the next order. -/
def syncOrdersLoop (toSync : List QueuedOrder) (delivered : Nat → Bool)
    (pending : List QueuedOrder) : List QueuedOrder :=
  match toSync with
  | [] => pending
  | o :: rest =>
    if delivered o.id then syncOrdersLoop rest delivered (removePendingOrder pending o.id)
    else syncOrdersLoop rest delivered pending

/-- syncOrders of v2.0: returns the pending-orders store content after
the drain, starting from the store content read at entry. -/
def syncOrders (orders : List QueuedOrder) (delivered : Nat → Bool) : List QueuedOrder :=
  syncOrdersLoop orders delivered orders

-- ═══════════════════════════════════════════════════════════════════
-- Service worker v2.1 (embedded in src/pwa-main.js): configuration
-- ═══════════════════════════════════════════════════════════════════

def versionV21 : String := "2.1.0"
def cachePfxV21 : String := "pvt-pwa"
def cacheNameV21 : String := cachePfxV21 ++ "-v" ++ versionV21
def offlineUrlV21 : String := "https://ksprovip7777.github.io/pwa-assets/offline.html"

/-- The cache names the CACHE_PATTERNS strategies of v2.1 write to. -/
def strategyCachesV21 : List String :=
  [cachePfxV21 ++ "-images", cachePfxV21 ++ "-assets",
   cachePfxV21 ++ "-fonts", cachePfxV21 ++ "-font-files"]

/-- The activate handler of v2.1: every cache name starting with the
prefix and different from CACHE_NAME is deleted. Returns the deleted
names. -/
def activateDeleteV21 (names : List String) : List String :=
  names.filter (fun n => strStartsWith n cachePfxV21 && !(n == cacheNameV21))

-- ═══════════════════════════════════════════════════════════════════
-- Service worker v2.1: strategies
-- ═══════════════════════════════════════════════════════════════════

/-- The synthetic response of the v2.1 cacheFirst catch branch. -/
def resp404 : Response := ⟨404, "Not found", 0⟩

/-- networkFirst of v2.1. Lookup on failure goes through caches.match
over the whole storage; the offline page is served when the accept
header contains text/html. -/
def networkFirst (s : CacheStorage) (cacheName req acceptHdr : String)
    (fetched : FetchOutcome) : Response × CacheStorage :=
  match fetched with
  | .success r =>
    (r, if r.status == 200 then putInCache s cacheName req r else s)
  | .failure =>
    match cachesMatchAll s req with
    | some cached => (cached, s)
    | none =>
      if strContainsJS acceptHdr "text/html" then
        match cachesMatchAll s offlineUrlV21 with
        | some off => (off, s)
        | none => (resp503, s)
      else (resp503, s)

/-- cacheFirst of v2.1: any cached entry is returned as is (no expiry
check); on a miss the network is tried, a status-200 response is stored;
a rejected fetch is caught and answered with a synthetic 404. The last
component counts network fetches. -/
def cacheFirst (s : CacheStorage) (cacheName req : String)
    (fetched : FetchOutcome) : Response × CacheStorage × Nat :=
  match cachesMatchAll s req with
  | some cached => (cached, s, 0)
  | none =>
    match fetched with
    | .success r =>
      (r, (if r.status == 200 then putInCache s cacheName req r else s), 1)
    | .failure => (resp404, s, 1)

/-- staleWhileRevalidate of v2.1: like the v2.0 strategy but the cache
write is gated on status equal to 200 exactly, and the swallowed
background failure resolves to undefined. -/
def staleWhileRevalidate (s : CacheStorage) (cacheName req : String)
    (fetched : FetchOutcome) : Option Response × CacheStorage :=
  let cached := cachesMatchAll s req
  let after :=
    match fetched with
    | .success r => if r.status == 200 then putInCache s cacheName req r else s
    | .failure => s
  match cached with
  | some c => (some c, after)
  | none =>
    match fetched with
    | .success r => (some r, after)
    | .failure => (none, after)

-- ═══════════════════════════════════════════════════════════════════
-- LotusDB (src/pwa-main.js): records as JS objects
-- ═══════════════════════════════════════════════════════════════════

inductive Val where
  | str (s : String)
  | num (n : Nat)
  | arr (xs : List String)
deriving DecidableEq, Repr

/-- A JS object: field names to values. Well-formed objects have
pairwise distinct field names. -/
abbrev Obj := List (String × Val)

def Obj.get (o : Obj) (f : String) : Option Val :=
  (o.find? (fun e => e.1 == f)).map (fun e => e.2)

/-- Field assignment: an existing field keeps its position, a new field
is appended, as in JS. -/
def Obj.set (o : Obj) (f : String) (v : Val) : Obj :=
  if o.any (fun e => e.1 == f) then
    o.map (fun e => if e.1 == f then (f, v) else e)
  else o ++ [(f, v)]

/-- Object spread: the fields of b assigned over a, in order. -/
def Obj.merge (a b : Obj) : Obj := b.foldl (fun acc e => acc.set e.1 e.2) a

def Obj.keys (o : Obj) : List String := o.map (fun e => e.1)

-- ═══════════════════════════════════════════════════════════════════
-- LotusDB: search index and search
-- ═══════════════════════════════════════════════════════════════════

/-- A field read guarded by JS truthiness: a missing, non-string or
empty-string field contributes nothing. -/
def truthyStr : Option Val → Option String
  | some (.str s) => if s == "" then none else some s
  | _ => none

/-- The spread of a JS Set built from a list: duplicates removed, first
occurrences kept in order. -/
def dedupFirst (l : List String) : List String :=
  l.foldl (fun acc t => if acc.contains t then acc else acc ++ [t]) []

/-- Store.prototype private buildSearchIndex: lower-cased space-split
words of TenSanPham and MoTa, the lower-cased Brand and Group values,
de-duplicated. -/
def buildSearchIndex (product : Obj) : List String :=
  let t1 := match truthyStr (product.get "TenSanPham") with
    | some s => jsSplitSpace (strToLower s)
    | none => []
  let t2 := match truthyStr (product.get "MoTa") with
    | some s => jsSplitSpace (strToLower s)
    | none => []
  let t3 := match truthyStr (product.get "Brand") with
    | some s => [strToLower s]
    | none => []
  let t4 := match truthyStr (product.get "Group") with
    | some s => [strToLower s]
    | none => []
  dedupFirst (t1 ++ t2 ++ t3 ++ t4)

/-- The index a record is matched against: its stored searchIndex when
it is an array, else the index built on the fly. -/
def indexTerms (product : Obj) : List String :=
  match product.get "searchIndex" with
  | some (.arr ts) => ts
  | _ => buildSearchIndex product

/-- Store.search on the products collection: the query is lower-cased
and trimmed, and a product is returned when some index term contains the
query as a substring. -/
def Store.search (products : List Obj) (query : String) : List Obj :=
  let queryLower := jsTrim (strToLower query)
  products.filter (fun p => (indexTerms p).any (fun t => strContainsJS t queryLower))

-- ═══════════════════════════════════════════════════════════════════
-- LotusDB: Store.add, Store.update, putRecord
-- ═══════════════════════════════════════════════════════════════════

inductive DBError where
  | constraintError
  | dataError
  | notFound
deriving DecidableEq, Repr

/-- The item Store.add builds before writing: the data plus a fresh
timestamp, and for the products collection the derived searchIndex. -/
def mkStoredItem (isProducts : Bool) (data : Obj) (now : Nat) : Obj :=
  let item := data.set "timestamp" (.num now)
  if isProducts then item.set "searchIndex" (.arr (buildSearchIndex item)) else item

/-- Whether some record of the collection carries the key under the
in-line key path kp. -/
def hasKey (kp : String) (col : List Obj) (k : Val) : Bool :=
  col.any (fun r => r.get kp == some k)

/-- Store.add: IDBObjectStore.add semantics, a duplicate key raises
ConstraintError, a missing key raises DataError. -/
def Store.add (isProducts : Bool) (kp : String) (col : List Obj) (data : Obj)
    (now : Nat) : Except DBError (List Obj) :=
  match (mkStoredItem isProducts data now).get kp with
  | none => .error .dataError
  | some k =>
    if hasKey kp col k then .error .constraintError
    else .ok (col ++ [mkStoredItem isProducts data now])

/-- IDBObjectStore.put with an in-line key: the records carrying the
same key are replaced, a fresh key is appended. -/
def putRecord (kp : String) (col : List Obj) (item : Obj) : List Obj :=
  match item.get kp with
  | none => col
  | some k =>
    if hasKey kp col k then
      col.map (fun r => if r.get kp == some k then item else r)
    else col ++ [item]

/-- The record Store.update writes back: the partial updates spread over
the stored record, the timestamp refreshed, and for products the
searchIndex recomputed. -/
def updatedRecord (isProducts : Bool) (item updates : Obj) (now : Nat) : Obj :=
  let u1 := (item.merge updates).set "timestamp" (.num now)
  if isProducts then u1.set "searchIndex" (.arr (buildSearchIndex u1)) else u1

/-- Store.update: read the record at the key (NotFound when absent),
spread the partial updates over it, refresh the timestamp, recompute the
searchIndex for products, and put the result back. -/
def Store.update (isProducts : Bool) (kp : String) (col : List Obj) (key : Val)
    (updates : Obj) (now : Nat) : Except DBError (List Obj) :=
  match col.find? (fun r => r.get kp == some key) with
  | none => .error .notFound
  | some item => .ok (putRecord kp col (updatedRecord isProducts item updates now))

-- ═══════════════════════════════════════════════════════════════════
-- SyncEngine: pull
-- ═══════════════════════════════════════════════════════════════════

/-- The parsed result.data of the snapshot response: the code branches
on Array.isArray. -/
inductive Snapshot where
  | arr (items : List Obj)
  | single (item : Obj)
deriving Repr

structure SyncState where
  col : List Obj
  lastSync : Option Nat
deriving DecidableEq, Repr

/-- The item loop of SyncEngine.pull over an array snapshot: each item
is added; a ConstraintError falls back to update with the full item at
the key read off the raw item; any other failure aborts the loop. The
collection mutations made so far persist (per-operation transactions);
the second component is the first error, none on full success. -/
def pullItems (isProducts : Bool) (kp : String) (col : List Obj)
    (items : List Obj) (now : Nat) : List Obj × Option DBError :=
  match items with
  | [] => (col, none)
  | it :: rest =>
    match Store.add isProducts kp col it now with
    | .ok col2 => pullItems isProducts kp col2 rest now
    | .error .constraintError =>
      match Obj.get it kp with
      | some k =>
        match Store.update isProducts kp col k it now with
        | .ok col2 => pullItems isProducts kp col2 rest now
        | .error e => (col, some e)
      | none => (col, some .notFound)
    | .error e => (col, some e)

/-- SyncEngine.pull from the point where the snapshot has been parsed:
an array snapshot runs the add-or-update loop, any other snapshot is
passed to a plain add with no fallback. The lastSync watermark is
written only after every item stored without error. -/
def SyncEngine.pull (isProducts : Bool) (kp : String) (st : SyncState)
    (snap : Snapshot) (now : Nat) : SyncState × Option DBError :=
  match snap with
  | .arr items =>
    match pullItems isProducts kp st.col items now with
    | (col2, none) => ({ col := col2, lastSync := some now }, none)
    | (col2, some e) => ({ col := col2, lastSync := st.lastSync }, some e)
  | .single it =>
    match Store.add isProducts kp st.col it now with
    | .ok col2 => ({ col := col2, lastSync := some now }, none)
    | .error e => ({ col := st.col, lastSync := st.lastSync }, some e)

/-- Repeated insert-and-evict through the cache-first write path: each
entry is put and the cache size limited, as cacheFirstStrategy does on
every successful network response. -/
def insertAll (c : Cache) (xs : List (String × Response)) (m : Nat) : Cache :=
  xs.foldl (fun acc e => limitCacheSize (cachePut acc e.1 e.2) m) c

-- ═══════════════════════════════════════════════════════════════════
-- Concrete instances used by the scenario theorems
-- ═══════════════════════════════════════════════════════════════════

def ordA : QueuedOrder := ⟨1, "A"⟩
def ordB : QueuedOrder := ⟨2, "B"⟩
def ordC : QueuedOrder := ⟨3, "C"⟩

/-- A product whose only index tokens are glass and cup. -/
def pGlass : Obj := [("ProductID", Val.str "p1"), ("TenSanPham", Val.str "Glass Cup")]

/-- A DYNAMIC cache already holding exactly CACHE_LIMITS.DYNAMIC entries
with pairwise distinct request keys. -/
def dyn50 : Cache :=
  (List.range 50).map (fun i => (String.mk [Char.ofNat (65 + i)], (⟨200, "img", 0⟩ : Response)))

/-- A stored record of the products collection with key p1. -/
def recP1 : Obj := [("ProductID", Val.str "p1"), ("timestamp", Val.num 1)]

/-- A stored record of the products collection with key p2. -/
def recP2 : Obj := [("ProductID", Val.str "p2"), ("timestamp", Val.num 2)]

/-- A remote snapshot item carrying the key p1. -/
def itemP1 : Obj := [("ProductID", Val.str "p1"), ("TenSanPham", Val.str "Ly Thuy Tinh")]

-- ═══════════════════════════════════════════════════════════════════
-- Helper lemmas: strings
-- ═══════════════════════════════════════════════════════════════════

theorem List.isPrefixOf_self' {α : Type} [BEq α] [LawfulBEq α] (l : List α) :
    l.isPrefixOf l = true := by
  induction l with
  | nil => rfl
  | cons a t ih => simp [List.isPrefixOf, ih]

theorem strContainsJS_self (s : String) : strContainsJS s s = true := by
  unfold strContainsJS
  cases h : s.data with
  | nil => simp [infixCheck, List.isEmpty]
  | cons c t => simp [infixCheck, List.isPrefixOf_self']

-- ═══════════════════════════════════════════════════════════════════
-- Helper lemmas: Obj
-- ═══════════════════════════════════════════════════════════════════

theorem Obj.get_nil (f : String) : Obj.get [] f = none := rfl

theorem Obj.get_cons (e : String × Val) (o : Obj) (f : String) :
    Obj.get (e :: o) f = if e.1 == f then some e.2 else Obj.get o f := by
  by_cases h : e.1 == f
  · simp [Obj.get, h, List.find?_cons_of_pos]
  · simp only [Obj.get]
    rw [List.find?_cons_of_neg]
    · simp [h]
    · simp [h]

theorem Obj.get_append (a b : Obj) (f : String) :
    Obj.get (a ++ b) f =
      match Obj.get a f with
      | some v => some v
      | none => Obj.get b f := by
  induction a with
  | nil => simp [Obj.get_nil]
  | cons e a ih =>
    rw [List.cons_append, Obj.get_cons, Obj.get_cons]
    by_cases h : e.1 == f
    · simp [h]
    · simp [h, ih]

theorem Obj.set_cons_ne (e : String × Val) (o : Obj) (f : String) (v : Val)
    (h : (e.1 == f) = false) : Obj.set (e :: o) f v = e :: Obj.set o f v := by
  have hef : ¬ e.1 = f := by simpa using h
  by_cases h2 : o.any (fun x => x.1 == f) <;> simp [Obj.set, h, hef, h2]

theorem Obj.set_cons_eq (e : String × Val) (o : Obj) (f : String) (v : Val)
    (h : (e.1 == f) = true) :
    Obj.set (e :: o) f v = (f, v) :: o.map (fun x => if x.1 == f then (f, v) else x) := by
  have hany : (e :: o).any (fun x => x.1 == f) = true := by simp [List.any_cons, h]
  simp only [Obj.set, hany, if_true, List.map_cons, h]

theorem Obj.get_map_replace (o : Obj) (f f' : String) (v : Val) (h : f' ≠ f) :
    Obj.get (o.map (fun e => if e.1 == f then (f, v) else e)) f' = Obj.get o f' := by
  induction o with
  | nil => rfl
  | cons e o ih =>
    obtain ⟨a, b⟩ := e
    by_cases hef : a = f
    · subst hef
      have h2 : (a == f') = false := by
        simp only [beq_eq_false_iff_ne]
        exact fun hc => h hc.symm
      simp only [List.map_cons, beq_self_eq_true, if_true, Obj.get_cons, h2, if_false]
      exact ih
    · have h2 : (a == f) = false := by simp [hef]
      simp only [List.map_cons, h2, Bool.false_eq_true, if_false, Obj.get_cons]
      by_cases h3 : a = f'
      · simp [h3]
      · have h4 : (a == f') = false := by simp [h3]
        simp only [h4, Bool.false_eq_true, if_false]
        exact ih

theorem Obj.get_set_self (o : Obj) (f : String) (v : Val) :
    Obj.get (Obj.set o f v) f = some v := by
  induction o with
  | nil => simp [Obj.set, Obj.get_cons]
  | cons e o ih =>
    obtain ⟨a, b⟩ := e
    by_cases hef : a = f
    · subst hef
      rw [Obj.set_cons_eq (a, b) o a v (by simp), Obj.get_cons]
      simp
    · have h2 : (a == f) = false := by simp [hef]
      rw [Obj.set_cons_ne (a, b) o f v h2, Obj.get_cons]
      simp only [h2, Bool.false_eq_true, if_false]
      exact ih

theorem Obj.get_set_ne (o : Obj) (f f' : String) (v : Val) (h : f' ≠ f) :
    Obj.get (Obj.set o f v) f' = Obj.get o f' := by
  induction o with
  | nil =>
    have h1 : (f == f') = false := by
      simp only [beq_eq_false_iff_ne]
      exact fun hc => h hc.symm
    simp [Obj.set, Obj.get_cons, h1]
  | cons e o ih =>
    obtain ⟨a, b⟩ := e
    by_cases hef : a = f
    · subst hef
      rw [Obj.set_cons_eq (a, b) o a v (by simp), Obj.get_cons]
      have h1 : (a == f') = false := by
        simp only [beq_eq_false_iff_ne]
        exact fun hc => h hc.symm
      simp only [h1, Bool.false_eq_true, if_false]
      rw [Obj.get_map_replace o a f' v h, Obj.get_cons]
      simp only [h1, Bool.false_eq_true, if_false]
    · have h2 : (a == f) = false := by simp [hef]
      rw [Obj.set_cons_ne (a, b) o f v h2, Obj.get_cons, Obj.get_cons]
      by_cases h3 : a = f'
      · simp [h3]
      · have h4 : (a == f') = false := by simp [h3]
        simp only [h4, Bool.false_eq_true, if_false]
        exact ih

theorem Obj.get_eq_none_iff (o : Obj) (f : String) :
    Obj.get o f = none ↔ ∀ e ∈ o, (e.1 == f) = false := by
  simp [Obj.get, Option.map_eq_none', List.find?_eq_none]

theorem Obj.get_of_nodup_mem (o : Obj) (hn : (Obj.keys o).Nodup) (e : String × Val)
    (he : e ∈ o) : Obj.get o e.1 = some e.2 := by
  induction o with
  | nil => cases he
  | cons x o ih =>
    simp only [Obj.keys, List.map_cons, List.nodup_cons] at hn
    rcases List.mem_cons.mp he with rfl | hmem
    · rw [Obj.get_cons]; simp
    · have hne : (x.1 == e.1) = false := by
        simp only [beq_eq_false_iff_ne]
        intro hc
        exact hn.1 (hc ▸ List.mem_map_of_mem Prod.fst hmem)
      rw [Obj.get_cons]
      simp only [hne, Bool.false_eq_true, if_false]
      exact ih hn.2 hmem

theorem Obj.set_eq_append (o : Obj) (f : String) (v : Val) (h : Obj.get o f = none) :
    Obj.set o f v = o ++ [(f, v)] := by
  have hall := (Obj.get_eq_none_iff o f).mp h
  have hany : o.any (fun e => e.1 == f) = false := by
    rw [List.any_eq_false]
    intro e he
    simp [hall e he]
  simp [Obj.set, hany]

theorem Obj.set_eq_self (o : Obj) (f : String) (v : Val) (hn : (Obj.keys o).Nodup)
    (h : Obj.get o f = some v) : Obj.set o f v = o := by
  induction o with
  | nil => simp [Obj.get_nil] at h
  | cons e o ih =>
    obtain ⟨a, b⟩ := e
    simp only [Obj.keys, List.map_cons, List.nodup_cons] at hn
    by_cases hef : a = f
    · subst hef
      rw [Obj.get_cons] at h
      simp only [beq_self_eq_true, if_true, Option.some.injEq] at h
      rw [Obj.set_cons_eq (a, b) o a v (by simp)]
      have h2 : o.map (fun x => if x.1 == a then (a, v) else x) = o := by
        have hpt : ∀ x ∈ o, (if x.1 == a then (a, v) else x) = x := by
          intro x hx
          have : (x.1 == a) = false := by
            simp only [beq_eq_false_iff_ne]
            intro hc
            exact hn.1 (hc ▸ List.mem_map_of_mem Prod.fst hx)
          simp [this]
        calc o.map (fun x => if x.1 == a then (a, v) else x) = o.map id :=
              List.map_congr_left hpt
          _ = o := List.map_id o
      rw [h2, h]
    · have h2 : (a == f) = false := by simp [hef]
      rw [Obj.get_cons] at h
      simp only [h2, Bool.false_eq_true, if_false] at h
      rw [Obj.set_cons_ne (a, b) o f v h2, ih hn.2 h]

theorem Obj.keys_set_of_absent (o : Obj) (f : String) (v : Val)
    (h : Obj.get o f = none) : Obj.keys (Obj.set o f v) = Obj.keys o ++ [f] := by
  rw [Obj.set_eq_append o f v h]
  simp [Obj.keys]

theorem Obj.merge_get (a b : Obj) (f : String) (hb : (Obj.keys b).Nodup) :
    Obj.get (Obj.merge a b) f =
      match Obj.get b f with
      | some v => some v
      | none => Obj.get a f := by
  induction b generalizing a with
  | nil => simp [Obj.merge, Obj.get_nil]
  | cons e b ih =>
    obtain ⟨g, w⟩ := e
    simp only [Obj.keys, List.map_cons, List.nodup_cons] at hb
    have hstep : Obj.merge a ((g, w) :: b) = Obj.merge (Obj.set a g w) b := rfl
    rw [hstep, ih (Obj.set a g w) hb.2, Obj.get_cons]
    by_cases hf : g = f
    · subst hf
      have hbnone : Obj.get b g = none := by
        rw [Obj.get_eq_none_iff]
        intro e he
        simp only [beq_eq_false_iff_ne]
        intro hc
        exact hb.1 (hc ▸ List.mem_map_of_mem Prod.fst he)
      simp [hbnone, Obj.get_set_self]
    · have h2 : (g == f) = false := by simp [hf]
      simp only [h2, Bool.false_eq_true, if_false]
      cases hbf : Obj.get b f with
      | some v => simp
      | none => simp [Obj.get_set_ne a g f w (fun hc => hf hc.symm)]

theorem Obj.merge_absorb (r it : Obj) (hr : (Obj.keys r).Nodup)
    (hit : ∀ e ∈ it, Obj.get r e.1 = some e.2) : Obj.merge r it = r := by
  induction it with
  | nil => rfl
  | cons e it ih =>
    have hstep : Obj.merge r (e :: it) = Obj.merge (Obj.set r e.1 e.2) it := rfl
    rw [hstep, Obj.set_eq_self r e.1 e.2 hr (hit e (List.mem_cons_self e it))]
    exact ih (fun x hx => hit x (List.mem_cons_of_mem e hx))

theorem Obj.set_append_replace (a b : Obj) (f : String) (v : Val)
    (ha : Obj.get a f = none) (hb : b.any (fun e => e.1 == f) = true) :
    Obj.set (a ++ b) f v = a ++ Obj.set b f v := by
  have hall := (Obj.get_eq_none_iff a f).mp ha
  have hany : (a ++ b).any (fun e => e.1 == f) = true := by
    rw [List.any_append, hb]
    simp
  simp only [Obj.set, hany, if_true, hb, List.map_append]
  congr 1
  calc a.map (fun e => if e.1 == f then (f, v) else e) = a.map id := by
        refine List.map_congr_left ?_
        intro x hx
        simp [hall x hx]
    _ = a := List.map_id a

-- ═══════════════════════════════════════════════════════════════════
-- Helper lemmas: buildSearchIndex and mkStoredItem
-- ═══════════════════════════════════════════════════════════════════

theorem buildSearchIndex_set_ne (o : Obj) (f : String) (v : Val)
    (h1 : f ≠ "TenSanPham") (h2 : f ≠ "MoTa") (h3 : f ≠ "Brand") (h4 : f ≠ "Group") :
    buildSearchIndex (Obj.set o f v) = buildSearchIndex o := by
  unfold buildSearchIndex
  rw [Obj.get_set_ne o f "TenSanPham" v (fun hc => h1 hc.symm),
      Obj.get_set_ne o f "MoTa" v (fun hc => h2 hc.symm),
      Obj.get_set_ne o f "Brand" v (fun hc => h3 hc.symm),
      Obj.get_set_ne o f "Group" v (fun hc => h4 hc.symm)]

/-- The shape of the item Store.add writes, for data free of the two
derived fields. -/
theorem mkStoredItem_eq_append (isP : Bool) (it : Obj) (t : Nat)
    (hts : Obj.get it "timestamp" = none) (hsi : Obj.get it "searchIndex" = none) :
    mkStoredItem isP it t =
      if isP then
        it ++ [("timestamp", Val.num t), ("searchIndex", Val.arr (buildSearchIndex it))]
      else it ++ [("timestamp", Val.num t)] := by
  cases isP with
  | false =>
    rw [if_neg (by decide)]
    show Obj.set it "timestamp" (Val.num t) = it ++ [("timestamp", Val.num t)]
    exact Obj.set_eq_append it "timestamp" (Val.num t) hts
  | true =>
    rw [if_pos rfl]
    show Obj.set (Obj.set it "timestamp" (Val.num t)) "searchIndex"
        (Val.arr (buildSearchIndex (Obj.set it "timestamp" (Val.num t)))) =
      it ++ [("timestamp", Val.num t), ("searchIndex", Val.arr (buildSearchIndex it))]
    have e1 : Obj.set it "timestamp" (Val.num t) = it ++ [("timestamp", Val.num t)] :=
      Obj.set_eq_append it "timestamp" (Val.num t) hts
    have e3 : buildSearchIndex (Obj.set it "timestamp" (Val.num t)) = buildSearchIndex it :=
      buildSearchIndex_set_ne it "timestamp" (Val.num t)
        (by decide) (by decide) (by decide) (by decide)
    have hsi2 : Obj.get (it ++ [("timestamp", Val.num t)]) "searchIndex" = none := by
      rw [Obj.get_append]
      simp [hsi, Obj.get_cons, Obj.get_nil]
    rw [e3, e1, Obj.set_eq_append _ "searchIndex" (Val.arr (buildSearchIndex it)) hsi2,
        List.append_assoc]
    rfl

theorem mkStoredItem_get_kp (isP : Bool) (it : Obj) (t : Nat) (kp : String)
    (hkp1 : kp ≠ "timestamp") (hkp2 : kp ≠ "searchIndex") :
    Obj.get (mkStoredItem isP it t) kp = Obj.get it kp := by
  unfold mkStoredItem
  cases isP with
  | false => exact Obj.get_set_ne it "timestamp" kp (Val.num t) hkp1
  | true =>
    simp only [if_true]
    rw [Obj.get_set_ne _ "searchIndex" kp _ hkp2,
        Obj.get_set_ne it "timestamp" kp (Val.num t) hkp1]

theorem mkStoredItem_keys_nodup (isP : Bool) (it : Obj) (t : Nat)
    (hn : (Obj.keys it).Nodup)
    (hts : Obj.get it "timestamp" = none) (hsi : Obj.get it "searchIndex" = none) :
    (Obj.keys (mkStoredItem isP it t)).Nodup := by
  have hts' : "timestamp" ∉ Obj.keys it := by
    intro hc
    obtain ⟨e, he, hfst⟩ := List.mem_map.mp hc
    have := (Obj.get_eq_none_iff it "timestamp").mp hts e he
    simp [hfst] at this
  have hsi' : "searchIndex" ∉ Obj.keys it := by
    intro hc
    obtain ⟨e, he, hfst⟩ := List.mem_map.mp hc
    have := (Obj.get_eq_none_iff it "searchIndex").mp hsi e he
    simp [hfst] at this
  rw [mkStoredItem_eq_append isP it t hts hsi]
  cases isP with
  | false =>
    rw [if_neg (by decide)]
    simp only [Obj.keys, List.map_append, List.map_cons, List.map_nil]
    rw [List.nodup_append]
    refine ⟨hn, by simp, ?_⟩
    intro x hx hmem
    simp only [List.mem_singleton] at hmem
    exact hts' (hmem ▸ hx)
  | true =>
    rw [if_pos rfl]
    simp only [Obj.keys, List.map_append, List.map_cons, List.map_nil]
    rw [List.nodup_append]
    refine ⟨hn, by decide, ?_⟩
    intro x hx hmem
    simp only [List.mem_cons, List.not_mem_nil, or_false] at hmem
    rcases hmem with h1 | h2
    · exact hts' (h1 ▸ hx)
    · exact hsi' (h2 ▸ hx)

-- ═══════════════════════════════════════════════════════════════════
-- Helper lemmas: syncOrders
-- ═══════════════════════════════════════════════════════════════════

theorem syncOrdersLoop_eq_filter (os : List QueuedOrder) (d : Nat → Bool)
    (p : List QueuedOrder) :
    syncOrdersLoop os d p =
      p.filter (fun x => !(d x.id && (os.map QueuedOrder.id).contains x.id)) := by
  induction os generalizing p with
  | nil => simp [syncOrdersLoop]
  | cons o rest ih =>
    simp only [syncOrdersLoop]
    by_cases h : d o.id
    · rw [if_pos h, ih, removePendingOrder, List.filter_filter]
      refine List.filter_congr ?_
      intro x _
      by_cases hx : x.id = o.id
      · simp [hx, h]
      · simp [hx]
    · rw [if_neg h, ih]
      refine List.filter_congr ?_
      intro x _
      by_cases hx : x.id = o.id
      · simp [hx, h]
      · simp [hx]

-- ═══════════════════════════════════════════════════════════════════
-- Helper lemmas: limitCacheSize and insertAll
-- ═══════════════════════════════════════════════════════════════════

theorem filter_take_keys_drop (c : Cache) (d : Nat) (hn : (cacheKeys c).Nodup) :
    c.filter (fun e => !(((cacheKeys c).take d).contains e.1)) = c.drop d := by
  induction c generalizing d with
  | nil => simp
  | cons e rest ih =>
    simp only [cacheKeys, List.map_cons, List.nodup_cons] at hn
    cases d with
    | zero => simp
    | succ d2 =>
      simp only [cacheKeys, List.map_cons, List.take_succ_cons, List.drop_succ_cons]
      rw [List.filter_cons]
      have hhead : (!((e.1 :: ((rest.map (fun x => x.1)).take d2)).contains e.1)) = false := by
        simp [List.contains_cons]
      rw [hhead]
      simp only [Bool.false_eq_true, if_false]
      have hcongr : ∀ x ∈ rest,
          (!((e.1 :: ((rest.map (fun x => x.1)).take d2)).contains x.1)) =
          (!(((rest.map (fun x => x.1)).take d2).contains x.1)) := by
        intro x hx
        have hne : x.1 ≠ e.1 := by
          intro hc
          exact hn.1 (hc ▸ List.mem_map_of_mem (fun y => y.1) hx)
        simp [List.contains_cons, hne]
      rw [List.filter_congr hcongr]
      exact ih d2 hn.2

theorem limitCacheSize_eq_drop (c : Cache) (m : Nat) (hn : (cacheKeys c).Nodup) :
    limitCacheSize c m = c.drop (c.length - m) := by
  unfold limitCacheSize
  by_cases hlen : c.length > m
  · rw [if_pos hlen]
    exact filter_take_keys_drop c (c.length - m) hn
  · rw [if_neg hlen]
    have : c.length - m = 0 := by omega
    rw [this, List.drop_zero]

theorem cachePut_fresh (c : Cache) (k : String) (r : Response)
    (h : k ∉ cacheKeys c) : cachePut c k r = c ++ [(k, r)] := by
  unfold cachePut
  congr 1
  refine List.filter_eq_self.mpr ?_
  intro e he
  simp only [Bool.not_eq_eq_eq_not, Bool.not_true, beq_eq_false_iff_ne]
  intro hc
  exact h (hc ▸ List.mem_map_of_mem (fun y => y.1) he)

theorem insertAll_nil (c : Cache) (m : Nat) : insertAll c [] m = c := rfl

theorem insertAll_spec (xs : List (String × Response)) (c : Cache) (m : Nat)
    (hn : (cacheKeys c ++ xs.map Prod.fst).Nodup) (hc : c.length ≤ m) :
    insertAll c xs m = (c ++ xs).drop (c.length + xs.length - m) := by
  induction xs generalizing c with
  | nil =>
    simp only [insertAll_nil, List.append_nil, List.length_nil, Nat.add_zero]
    have h0 : c.length - m = 0 := by omega
    rw [h0, List.drop_zero]
  | cons x rest ih =>
    obtain ⟨hnA, hnB, hdisj⟩ := List.nodup_append.mp hn
    have hx1 : x.1 ∉ cacheKeys c := by
      intro hc2
      exact hdisj hc2 (by simp)
    have hstep : insertAll c (x :: rest) m =
        insertAll (limitCacheSize (cachePut c x.1 x.2) m) rest m := rfl
    rw [hstep, cachePut_fresh c x.1 x.2 hx1]
    have hkeys1 : cacheKeys (c ++ [x]) = cacheKeys c ++ [x.1] := by
      simp [cacheKeys]
    have hn1 : (cacheKeys (c ++ [x])).Nodup := by
      rw [hkeys1, List.nodup_append]
      refine ⟨hnA, by simp, ?_⟩
      intro a ha hmem
      simp only [List.mem_singleton] at hmem
      exact hx1 (hmem ▸ ha)
    rw [limitCacheSize_eq_drop (c ++ [x]) m hn1]
    have hlen1 : (c ++ [x]).length = c.length + 1 := by simp
    set d := (c ++ [x]).length - m with hd
    have hd1 : d ≤ c.length + 1 := by omega
    have hkeys2 : cacheKeys ((c ++ [x]).drop d) = (cacheKeys c ++ [x.1]).drop d := by
      simp [cacheKeys, List.map_drop, hkeys1]
    have hn2 : (cacheKeys ((c ++ [x]).drop d) ++ rest.map Prod.fst).Nodup := by
      rw [hkeys2]
      have hsub : ((cacheKeys c ++ [x.1]).drop d ++ rest.map Prod.fst).Sublist
          ((cacheKeys c ++ [x.1]) ++ rest.map Prod.fst) :=
        (List.drop_sublist d (cacheKeys c ++ [x.1])).append_right (rest.map Prod.fst)
      refine List.Sublist.nodup hsub ?_
      have : cacheKeys c ++ [x.1] ++ rest.map Prod.fst =
          cacheKeys c ++ (x.1 :: rest.map Prod.fst) := by simp
      rw [this]
      simpa using hn
    have hlen2 : ((c ++ [x]).drop d).length ≤ m := by
      rw [List.length_drop, hlen1]
      omega
    rw [ih ((c ++ [x]).drop d) hn2 hlen2]
    have hdle : d ≤ (c ++ [x]).length := by omega
    rw [← @List.drop_append_of_le_length (String × Response) (c ++ [x]) rest d hdle,
      List.drop_drop]
    have hassoc : (c ++ [x]) ++ rest = c ++ (x :: rest) := by simp
    rw [hassoc]
    congr 1
    rw [List.length_drop, hlen1]
    simp only [List.length_cons]
    omega

-- ═══════════════════════════════════════════════════════════════════
-- Helper lemmas: hasKey, putRecord, Store.add, Store.update
-- ═══════════════════════════════════════════════════════════════════

theorem hasKey_append (kp : String) (a b : List Obj) (k : Val) :
    hasKey kp (a ++ b) k = (hasKey kp a k || hasKey kp b k) := by
  simp [hasKey, List.any_append]

theorem putRecord_hasKey_mono (kp : String) (col : List Obj) (item : Obj) (k : Val)
    (h : hasKey kp col k = true) : hasKey kp (putRecord kp col item) k = true := by
  unfold putRecord
  cases hik : Obj.get item kp with
  | none =>
    show hasKey kp col k = true
    exact h
  | some k2 =>
    show hasKey kp (if hasKey kp col k2 then
        List.map (fun r => if Obj.get r kp == some k2 then item else r) col
      else col ++ [item]) k = true
    by_cases h2 : hasKey kp col k2
    · rw [if_pos h2]
      obtain ⟨r, hr, hrk⟩ := List.any_eq_true.mp h
      refine List.any_eq_true.mpr ?_
      by_cases h3 : (Obj.get r kp == some k2) = true
      · refine ⟨item, List.mem_map.mpr ⟨r, hr, by simp [h3]⟩, ?_⟩
        have e1 : Obj.get r kp = some k := by simpa using hrk
        have e2 : Obj.get r kp = some k2 := by simpa using h3
        have e3 : k = k2 := by
          have := e1.symm.trans e2
          simpa using this
        simp [hik, e3]
      · exact ⟨r, List.mem_map.mpr ⟨r, hr, by simp [h3]⟩, hrk⟩
    · rw [if_neg h2, hasKey_append, h]
      simp

theorem putRecord_hasKey_self (kp : String) (col : List Obj) (item : Obj) (k : Val)
    (hik : Obj.get item kp = some k) : hasKey kp (putRecord kp col item) k = true := by
  unfold putRecord
  rw [hik]
  show hasKey kp (if hasKey kp col k then
      List.map (fun r => if Obj.get r kp == some k then item else r) col
    else col ++ [item]) k = true
  by_cases h2 : hasKey kp col k
  · rw [if_pos h2]
    obtain ⟨r, hr, hrk⟩ := List.any_eq_true.mp h2
    refine List.any_eq_true.mpr ⟨item, List.mem_map.mpr ⟨r, hr, by simp [hrk]⟩, by simp [hik]⟩
  · rw [if_neg h2, hasKey_append]
    simp [hasKey, hik]

theorem add_ok_inv (isP : Bool) (kp : String) (col : List Obj) (data : Obj) (now : Nat)
    (col2 : List Obj) (h : Store.add isP kp col data now = .ok col2) :
    col2 = col ++ [mkStoredItem isP data now] ∧
    ∃ k, Obj.get (mkStoredItem isP data now) kp = some k ∧ hasKey kp col k = false := by
  unfold Store.add at h
  cases hik : Obj.get (mkStoredItem isP data now) kp with
  | none =>
    rw [hik] at h
    exact absurd h (by intro hc; cases hc)
  | some k =>
    rw [hik] at h
    have h' : (if hasKey kp col k then (Except.error DBError.constraintError)
        else Except.ok (col ++ [mkStoredItem isP data now])) = Except.ok col2 := h
    by_cases h2 : hasKey kp col k
    · rw [if_pos h2] at h'
      cases h'
    · rw [if_neg h2] at h'
      injection h' with h3
      exact ⟨h3.symm, k, rfl, by simpa using h2⟩

theorem add_of_fresh (isP : Bool) (kp : String) (col : List Obj) (it : Obj) (now : Nat)
    (k : Val) (hkp1 : kp ≠ "timestamp") (hkp2 : kp ≠ "searchIndex")
    (hik : Obj.get it kp = some k) (hfresh : hasKey kp col k = false) :
    Store.add isP kp col it now = .ok (col ++ [mkStoredItem isP it now]) := by
  unfold Store.add
  rw [mkStoredItem_get_kp isP it now kp hkp1 hkp2, hik]
  show (if hasKey kp col k then (Except.error DBError.constraintError)
      else Except.ok (col ++ [mkStoredItem isP it now])) = _
  rw [if_neg (by simp [hfresh])]

theorem add_of_dup (isP : Bool) (kp : String) (col : List Obj) (it : Obj) (now : Nat)
    (k : Val) (hkp1 : kp ≠ "timestamp") (hkp2 : kp ≠ "searchIndex")
    (hik : Obj.get it kp = some k) (hdup : hasKey kp col k = true) :
    Store.add isP kp col it now = .error .constraintError := by
  unfold Store.add
  rw [mkStoredItem_get_kp isP it now kp hkp1 hkp2, hik]
  show (if hasKey kp col k then (Except.error DBError.constraintError)
      else Except.ok (col ++ [mkStoredItem isP it now])) = _
  rw [if_pos hdup]

theorem update_ok_inv (isP : Bool) (kp : String) (col : List Obj) (key : Val)
    (u : Obj) (now : Nat) (col2 : List Obj)
    (h : Store.update isP kp col key u now = .ok col2) :
    ∃ item, col.find? (fun r => Obj.get r kp == some key) = some item ∧
      col2 = putRecord kp col (updatedRecord isP item u now) := by
  unfold Store.update at h
  cases hf : col.find? (fun r => Obj.get r kp == some key) with
  | none =>
    rw [hf] at h
    exact absurd h (by intro hc; cases hc)
  | some item =>
    rw [hf] at h
    have h' : (Except.ok (putRecord kp col (updatedRecord isP item u now)) :
        Except DBError (List Obj)) = Except.ok col2 := h
    injection h' with h2
    exact ⟨item, rfl, h2.symm⟩

theorem updatedRecord_get_kp (isP : Bool) (item u : Obj) (now : Nat) (kp : String)
    (hkp1 : kp ≠ "timestamp") (hkp2 : kp ≠ "searchIndex") :
    Obj.get (updatedRecord isP item u now) kp = Obj.get (Obj.merge item u) kp := by
  cases isP with
  | false =>
    show Obj.get (Obj.set (Obj.merge item u) "timestamp" (Val.num now)) kp = _
    exact Obj.get_set_ne _ _ _ _ hkp1
  | true =>
    show Obj.get (Obj.set (Obj.set (Obj.merge item u) "timestamp" (Val.num now)) "searchIndex"
      (Val.arr (buildSearchIndex (Obj.set (Obj.merge item u) "timestamp" (Val.num now))))) kp = _
    rw [Obj.get_set_ne _ _ _ _ hkp2, Obj.get_set_ne _ _ _ _ hkp1]

theorem updatedRecord_get_ts (isP : Bool) (item u : Obj) (now : Nat) :
    Obj.get (updatedRecord isP item u now) "timestamp" = some (Val.num now) := by
  cases isP with
  | false =>
    show Obj.get (Obj.set (Obj.merge item u) "timestamp" (Val.num now)) "timestamp" = _
    exact Obj.get_set_self _ _ _
  | true =>
    show Obj.get (Obj.set (Obj.set (Obj.merge item u) "timestamp" (Val.num now)) "searchIndex"
      (Val.arr (buildSearchIndex (Obj.set (Obj.merge item u) "timestamp" (Val.num now))))) "timestamp" = _
    rw [Obj.get_set_ne _ _ _ _ (by decide)]
    exact Obj.get_set_self _ _ _

theorem updatedRecord_get_si (item u : Obj) (now : Nat) :
    Obj.get (updatedRecord true item u now) "searchIndex" =
      some (Val.arr (buildSearchIndex
        (Obj.set (Obj.merge item u) "timestamp" (Val.num now)))) := by
  show Obj.get (Obj.set (Obj.set (Obj.merge item u) "timestamp" (Val.num now)) "searchIndex"
    (Val.arr (buildSearchIndex (Obj.set (Obj.merge item u) "timestamp" (Val.num now))))) "searchIndex" = _
  exact Obj.get_set_self _ _ _

-- ═══════════════════════════════════════════════════════════════════
-- Helper lemmas: pullItems stepping equations
-- ═══════════════════════════════════════════════════════════════════

theorem pullItems_cons_ok {isP : Bool} {kp : String} {col c2 : List Obj} {it : Obj}
    {rest : List Obj} {now : Nat} (ha : Store.add isP kp col it now = .ok c2) :
    pullItems isP kp col (it :: rest) now = pullItems isP kp c2 rest now := by
  conv_lhs => unfold pullItems
  rw [ha]

theorem pullItems_cons_update {isP : Bool} {kp : String} {col c2 : List Obj} {it : Obj}
    {rest : List Obj} {now : Nat} {k : Val}
    (ha : Store.add isP kp col it now = .error .constraintError)
    (hk : Obj.get it kp = some k)
    (hu : Store.update isP kp col k it now = .ok c2) :
    pullItems isP kp col (it :: rest) now = pullItems isP kp c2 rest now := by
  conv_lhs => unfold pullItems
  rw [ha, hk]
  show (match Store.update isP kp col k it now with
        | Except.ok col2 => pullItems isP kp col2 rest now
        | Except.error e => (col, some e)) = _
  rw [hu]

theorem pullItems_cons_update_err {isP : Bool} {kp : String} {col : List Obj} {it : Obj}
    {rest : List Obj} {now : Nat} {k : Val} {e : DBError}
    (ha : Store.add isP kp col it now = .error .constraintError)
    (hk : Obj.get it kp = some k)
    (hu : Store.update isP kp col k it now = .error e) :
    pullItems isP kp col (it :: rest) now = (col, some e) := by
  conv_lhs => unfold pullItems
  rw [ha, hk]
  show (match Store.update isP kp col k it now with
        | Except.ok col2 => pullItems isP kp col2 rest now
        | Except.error e => (col, some e)) = _
  rw [hu]

theorem pullItems_cons_nokey {isP : Bool} {kp : String} {col : List Obj} {it : Obj}
    {rest : List Obj} {now : Nat}
    (ha : Store.add isP kp col it now = .error .constraintError)
    (hk : Obj.get it kp = none) :
    pullItems isP kp col (it :: rest) now = (col, some .notFound) := by
  conv_lhs => unfold pullItems
  rw [ha, hk]

theorem pullItems_cons_data {isP : Bool} {kp : String} {col : List Obj} {it : Obj}
    {rest : List Obj} {now : Nat}
    (ha : Store.add isP kp col it now = .error .dataError) :
    pullItems isP kp col (it :: rest) now = (col, some .dataError) := by
  conv_lhs => unfold pullItems
  rw [ha]

theorem pullItems_cons_notfound {isP : Bool} {kp : String} {col : List Obj} {it : Obj}
    {rest : List Obj} {now : Nat}
    (ha : Store.add isP kp col it now = .error .notFound) :
    pullItems isP kp col (it :: rest) now = (col, some .notFound) := by
  conv_lhs => unfold pullItems
  rw [ha]

theorem update_of_found {isP : Bool} {kp : String} {col : List Obj} {key : Val}
    {u : Obj} {now : Nat} {item : Obj}
    (hf : col.find? (fun r => Obj.get r kp == some key) = some item) :
    Store.update isP kp col key u now =
      .ok (putRecord kp col (updatedRecord isP item u now)) := by
  conv_lhs => unfold Store.update
  rw [hf]

-- ═══════════════════════════════════════════════════════════════════
-- Helper lemmas: pullItems preserves and establishes keys
-- ═══════════════════════════════════════════════════════════════════

theorem pullItems_hasKey_mono (isP : Bool) (kp : String) (now : Nat) :
    ∀ (items col col2 : List Obj) (k : Val),
    pullItems isP kp col items now = (col2, none) →
    hasKey kp col k = true → hasKey kp col2 k = true := by
  intro items
  induction items with
  | nil =>
    intro col col2 k h hk
    unfold pullItems at h
    injection h with h1 _
    exact h1 ▸ hk
  | cons it rest ih =>
    intro col col2 k h hk
    cases ha : Store.add isP kp col it now with
    | ok c2 =>
      rw [pullItems_cons_ok ha] at h
      obtain ⟨hc2, _⟩ := add_ok_inv isP kp col it now c2 ha
      refine ih c2 col2 k h ?_
      rw [hc2, hasKey_append, hk]
      simp
    | error e =>
      cases e with
      | constraintError =>
        cases hg : Obj.get it kp with
        | none =>
          rw [pullItems_cons_nokey ha hg] at h
          injection h with _ h2
          cases h2
        | some k2 =>
          cases hu : Store.update isP kp col k2 it now with
          | ok c2 =>
            rw [pullItems_cons_update ha hg hu] at h
            obtain ⟨item, _, hc2⟩ := update_ok_inv isP kp col k2 it now c2 hu
            refine ih c2 col2 k h ?_
            rw [hc2]
            exact putRecord_hasKey_mono kp col _ k hk
          | error e2 =>
            rw [pullItems_cons_update_err ha hg hu] at h
            injection h with _ h2
            cases h2
      | dataError =>
        rw [pullItems_cons_data ha] at h
        injection h with _ h2
        cases h2
      | notFound =>
        rw [pullItems_cons_notfound ha] at h
        injection h with _ h2
        cases h2

theorem pullItems_stores_all (isP : Bool) (kp : String) (now : Nat)
    (hkp1 : kp ≠ "timestamp") (hkp2 : kp ≠ "searchIndex") :
    ∀ (items col col2 : List Obj),
    (∀ it ∈ items, (Obj.keys it).Nodup) →
    pullItems isP kp col items now = (col2, none) →
    ∀ it ∈ items, ∀ k, Obj.get it kp = some k → hasKey kp col2 k = true := by
  intro items
  induction items with
  | nil =>
    intro col col2 hni h it hit
    cases hit
  | cons it0 rest ih =>
    intro col col2 hni h it hit k hk
    cases ha : Store.add isP kp col it0 now with
    | ok c2 =>
      rw [pullItems_cons_ok ha] at h
      rcases List.mem_cons.mp hit with rfl | hmem
      · obtain ⟨hc2, _⟩ := add_ok_inv isP kp col it now c2 ha
        refine pullItems_hasKey_mono isP kp now rest c2 col2 k h ?_
        rw [hc2, hasKey_append]
        have hone : hasKey kp [mkStoredItem isP it now] k = true := by
          simp [hasKey, mkStoredItem_get_kp isP it now kp hkp1 hkp2, hk]
        rw [hone]
        simp
      · exact ih c2 col2 (fun x hx => hni x (List.mem_cons_of_mem it0 hx)) h it hmem k hk
    | error e =>
      cases e with
      | constraintError =>
        cases hg : Obj.get it0 kp with
        | none =>
          rw [pullItems_cons_nokey ha hg] at h
          injection h with _ h2
          cases h2
        | some k2 =>
          cases hu : Store.update isP kp col k2 it0 now with
          | ok c2 =>
            rw [pullItems_cons_update ha hg hu] at h
            rcases List.mem_cons.mp hit with rfl | hmem
            · have hkk : k = k2 := by
                rw [hk] at hg
                injection hg
              subst hkk
              obtain ⟨item, hfind, hc2⟩ := update_ok_inv isP kp col k it now c2 hu
              refine pullItems_hasKey_mono isP kp now rest c2 col2 k h ?_
              rw [hc2]
              refine putRecord_hasKey_self kp col _ k ?_
              rw [updatedRecord_get_kp isP item it now kp hkp1 hkp2,
                  Obj.merge_get item it kp (hni it (List.mem_cons_self it rest)), hk]
            · exact ih c2 col2 (fun x hx => hni x (List.mem_cons_of_mem it0 hx)) h it hmem k hk
          | error e2 =>
            rw [pullItems_cons_update_err ha hg hu] at h
            injection h with _ h2
            cases h2
      | dataError =>
        rw [pullItems_cons_data ha] at h
        injection h with _ h2
        cases h2
      | notFound =>
        rw [pullItems_cons_notfound ha] at h
        injection h with _ h2
        cases h2

-- ═══════════════════════════════════════════════════════════════════
-- Helper lemmas: refreshing a stored item
-- ═══════════════════════════════════════════════════════════════════

theorem buildSearchIndex_mk (isP : Bool) (it : Obj) (t : Nat) :
    buildSearchIndex (mkStoredItem isP it t) = buildSearchIndex it := by
  cases isP with
  | false =>
    show buildSearchIndex (Obj.set it "timestamp" (Val.num t)) = _
    exact buildSearchIndex_set_ne it "timestamp" (Val.num t)
      (by decide) (by decide) (by decide) (by decide)
  | true =>
    show buildSearchIndex (Obj.set (Obj.set it "timestamp" (Val.num t)) "searchIndex"
      (Val.arr (buildSearchIndex (Obj.set it "timestamp" (Val.num t))))) = _
    rw [buildSearchIndex_set_ne _ "searchIndex" _
        (by decide) (by decide) (by decide) (by decide),
      buildSearchIndex_set_ne it "timestamp" (Val.num t)
        (by decide) (by decide) (by decide) (by decide)]

theorem mkStoredItem_get_si (it : Obj) (t : Nat)
    (hts : Obj.get it "timestamp" = none) (hsi : Obj.get it "searchIndex" = none) :
    Obj.get (mkStoredItem true it t) "searchIndex" =
      some (Val.arr (buildSearchIndex it)) := by
  rw [mkStoredItem_eq_append true it t hts hsi, if_pos rfl, Obj.get_append]
  rw [hsi]
  simp [Obj.get_cons, Obj.get_nil]

theorem mkStoredItem_get_field (isP : Bool) (it : Obj) (t : Nat)
    (hts : Obj.get it "timestamp" = none) (hsi : Obj.get it "searchIndex" = none)
    (hn : (Obj.keys it).Nodup) (e : String × Val) (he : e ∈ it) :
    Obj.get (mkStoredItem isP it t) e.1 = some e.2 := by
  rw [mkStoredItem_eq_append isP it t hts hsi]
  have hget : Obj.get it e.1 = some e.2 := Obj.get_of_nodup_mem it hn e he
  cases isP with
  | false =>
    rw [if_neg (by decide), Obj.get_append, hget]
  | true =>
    rw [if_pos rfl, Obj.get_append, hget]

theorem mkStoredItem_set_ts (isP : Bool) (it : Obj) (t1 t2 : Nat)
    (hts : Obj.get it "timestamp" = none) (hsi : Obj.get it "searchIndex" = none) :
    Obj.set (mkStoredItem isP it t1) "timestamp" (Val.num t2) =
      mkStoredItem isP it t2 := by
  rw [mkStoredItem_eq_append isP it t1 hts hsi, mkStoredItem_eq_append isP it t2 hts hsi]
  cases isP with
  | false =>
    rw [if_neg (by decide), if_neg (by decide)]
    rw [Obj.set_append_replace it [("timestamp", Val.num t1)] "timestamp" (Val.num t2)
      hts (by simp)]
    congr 1
  | true =>
    rw [if_pos rfl, if_pos rfl]
    rw [Obj.set_append_replace it
      [("timestamp", Val.num t1), ("searchIndex", Val.arr (buildSearchIndex it))]
      "timestamp" (Val.num t2) hts (by simp)]
    congr 1

theorem updatedRecord_mk (isP : Bool) (it : Obj) (t1 t2 : Nat)
    (hn : (Obj.keys it).Nodup)
    (hts : Obj.get it "timestamp" = none) (hsi : Obj.get it "searchIndex" = none) :
    updatedRecord isP (mkStoredItem isP it t1) it t2 = mkStoredItem isP it t2 := by
  have hmerge : Obj.merge (mkStoredItem isP it t1) it = mkStoredItem isP it t1 := by
    refine Obj.merge_absorb _ _ (mkStoredItem_keys_nodup isP it t1 hn hts hsi) ?_
    intro e he
    exact mkStoredItem_get_field isP it t1 hts hsi hn e he
  cases isP with
  | false =>
    show Obj.set (Obj.merge (mkStoredItem false it t1) it) "timestamp" (Val.num t2) = _
    rw [hmerge, mkStoredItem_set_ts false it t1 t2 hts hsi]
  | true =>
    show Obj.set (Obj.set (Obj.merge (mkStoredItem true it t1) it) "timestamp" (Val.num t2))
      "searchIndex" (Val.arr (buildSearchIndex
        (Obj.set (Obj.merge (mkStoredItem true it t1) it) "timestamp" (Val.num t2)))) = _
    rw [hmerge, mkStoredItem_set_ts true it t1 t2 hts hsi, buildSearchIndex_mk true it t2]
    refine Obj.set_eq_self _ _ _ (mkStoredItem_keys_nodup true it t2 hn hts hsi) ?_
    exact mkStoredItem_get_si it t2 hts hsi

-- ═══════════════════════════════════════════════════════════════════
-- Helper lemmas: first and second pull over a whole snapshot
-- ═══════════════════════════════════════════════════════════════════

theorem pullItems_fresh (isP : Bool) (kp : String) (now : Nat)
    (hkp1 : kp ≠ "timestamp") (hkp2 : kp ≠ "searchIndex") :
    ∀ (items : List Obj) (col : List Obj),
    (∀ it ∈ items, (Obj.get it kp).isSome = true) →
    (items.map (fun it => Obj.get it kp)).Nodup →
    (∀ it ∈ items, ∀ k, Obj.get it kp = some k → hasKey kp col k = false) →
    pullItems isP kp col items now =
      (col ++ items.map (fun it => mkStoredItem isP it now), none) := by
  intro items
  induction items with
  | nil =>
    intro col _ _ _
    unfold pullItems
    simp
  | cons it rest ih =>
    intro col hsome hget hfresh
    cases hk : Obj.get it kp with
    | none =>
      have := hsome it (List.mem_cons_self it rest)
      rw [hk] at this
      cases this
    | some k =>
      have hfr : hasKey kp col k = false := hfresh it (List.mem_cons_self it rest) k hk
      rw [pullItems_cons_ok (add_of_fresh isP kp col it now k hkp1 hkp2 hk hfr)]
      have hmapget : Obj.get (mkStoredItem isP it now) kp = some k := by
        rw [mkStoredItem_get_kp isP it now kp hkp1 hkp2, hk]
      simp only [List.map_cons, List.nodup_cons] at hget
      have ihres := ih (col ++ [mkStoredItem isP it now])
        (fun x hx => hsome x (List.mem_cons_of_mem it hx))
        hget.2
        (by
          intro x hx k2 hk2
          rw [hasKey_append, hfresh x (List.mem_cons_of_mem it hx) k2 hk2]
          have hne : (Obj.get (mkStoredItem isP it now) kp == some k2) = false := by
            rw [hmapget]
            simp only [beq_eq_false_iff_ne]
            intro hc
            have hxk : Obj.get x kp = some k := by
              rw [hk2]
              injection hc with hc2
              rw [hc2]
            have hmem2 : Obj.get it kp ∈ rest.map (fun y => Obj.get y kp) := by
              rw [hk, ← hxk]
              exact List.mem_map_of_mem (fun y => Obj.get y kp) hx
            exact hget.1 hmem2
          simp [hasKey, hne])
      rw [ihres]
      simp

theorem pullItems_refresh (isP : Bool) (kp : String) (t1 t2 : Nat)
    (hkp1 : kp ≠ "timestamp") (hkp2 : kp ≠ "searchIndex") :
    ∀ (items done : List Obj),
    (∀ it ∈ items, (Obj.get it kp).isSome = true) →
    (items.map (fun it => Obj.get it kp)).Nodup →
    (∀ it ∈ items, (Obj.keys it).Nodup) →
    (∀ it ∈ items, Obj.get it "timestamp" = none) →
    (∀ it ∈ items, Obj.get it "searchIndex" = none) →
    (∀ it ∈ items, ∀ k, Obj.get it kp = some k → hasKey kp done k = false) →
    pullItems isP kp (done ++ items.map (fun it => mkStoredItem isP it t1)) items t2 =
      (done ++ items.map (fun it => mkStoredItem isP it t2), none) := by
  intro items
  induction items with
  | nil =>
    intro done _ _ _ _ _ _
    unfold pullItems
    simp
  | cons it rest ih =>
    intro done hsome hget hni hts hsi hdone
    have hmem0 : it ∈ it :: rest := List.mem_cons_self it rest
    cases hk : Obj.get it kp with
    | none =>
      have := hsome it hmem0
      rw [hk] at this
      cases this
    | some k =>
      simp only [List.map_cons, List.nodup_cons] at hget
      have hmk1 : Obj.get (mkStoredItem isP it t1) kp = some k := by
        rw [mkStoredItem_get_kp isP it t1 kp hkp1 hkp2, hk]
      have hmk2 : Obj.get (mkStoredItem isP it t2) kp = some k := by
        rw [mkStoredItem_get_kp isP it t2 kp hkp1 hkp2, hk]
      -- the collection at this step
      have hcolEq : done ++ ((it :: rest).map (fun x => mkStoredItem isP x t1)) =
          done ++ (mkStoredItem isP it t1 :: rest.map (fun x => mkStoredItem isP x t1)) := by
        simp
      -- key k is present, so add raises ConstraintError
      have hdup : hasKey kp
          (done ++ mkStoredItem isP it t1 :: rest.map (fun x => mkStoredItem isP x t1))
          k = true := by
        rw [hasKey_append]
        have : hasKey kp (mkStoredItem isP it t1 :: rest.map (fun x => mkStoredItem isP x t1))
            k = true := by
          simp [hasKey, List.any_cons, hmk1]
        rw [this]
        simp
      have ha := add_of_dup isP kp
        (done ++ mkStoredItem isP it t1 :: rest.map (fun x => mkStoredItem isP x t1))
        it t2 k hkp1 hkp2 hk hdup
      -- find? locates the stored record for this key
      have hdonenone : (done.find? (fun r => Obj.get r kp == some k)) = none := by
        rw [List.find?_eq_none]
        intro r hr
        have hfalse : hasKey kp done k = false := hdone it hmem0 k hk
        have := List.any_eq_false.mp hfalse r hr
        simpa using this
      have hfind : (done ++ mkStoredItem isP it t1 ::
          rest.map (fun x => mkStoredItem isP x t1)).find?
          (fun r => Obj.get r kp == some k) = some (mkStoredItem isP it t1) := by
        rw [List.find?_append, hdonenone]
        simp only [Option.none_or]
        rw [List.find?_cons_of_pos]
        simp [hmk1]
      have hu := @update_of_found isP kp
        (done ++ mkStoredItem isP it t1 :: rest.map (fun x => mkStoredItem isP x t1))
        k it t2 (mkStoredItem isP it t1) hfind
      rw [updatedRecord_mk isP it t1 t2 (hni it hmem0) (hts it hmem0) (hsi it hmem0)] at hu
      -- the put replaces exactly the stored record for this key
      have hput : putRecord kp
          (done ++ mkStoredItem isP it t1 :: rest.map (fun x => mkStoredItem isP x t1))
          (mkStoredItem isP it t2) =
          done ++ mkStoredItem isP it t2 :: rest.map (fun x => mkStoredItem isP x t1) := by
        unfold putRecord
        rw [hmk2]
        show (if hasKey kp (done ++ mkStoredItem isP it t1 ::
            rest.map (fun x => mkStoredItem isP x t1)) k then
            List.map (fun r => if Obj.get r kp == some k then mkStoredItem isP it t2 else r)
              (done ++ mkStoredItem isP it t1 :: rest.map (fun x => mkStoredItem isP x t1))
          else (done ++ mkStoredItem isP it t1 ::
            rest.map (fun x => mkStoredItem isP x t1)) ++ [mkStoredItem isP it t2]) = _
        rw [if_pos hdup, List.map_append, List.map_cons]
        have hdonemap : done.map
            (fun r => if Obj.get r kp == some k then mkStoredItem isP it t2 else r) = done := by
          have hpt : ∀ r ∈ done,
              (if Obj.get r kp == some k then mkStoredItem isP it t2 else r) = r := by
            intro r hr
            have hfalse : hasKey kp done k = false := hdone it hmem0 k hk
            have := List.any_eq_false.mp hfalse r hr
            simp only [Bool.not_eq_true] at this
            simp [this]
          calc done.map (fun r => if Obj.get r kp == some k then mkStoredItem isP it t2 else r)
              = done.map id := List.map_congr_left hpt
            _ = done := List.map_id done
        have hheadmap : (if Obj.get (mkStoredItem isP it t1) kp == some k
            then mkStoredItem isP it t2 else mkStoredItem isP it t1) = mkStoredItem isP it t2 := by
          simp [hmk1]
        have hrestmap : (rest.map (fun x => mkStoredItem isP x t1)).map
            (fun r => if Obj.get r kp == some k then mkStoredItem isP it t2 else r) =
            rest.map (fun x => mkStoredItem isP x t1) := by
          have hpt : ∀ r ∈ rest.map (fun x => mkStoredItem isP x t1),
              (if Obj.get r kp == some k then mkStoredItem isP it t2 else r) = r := by
            intro r hr
            obtain ⟨x, hx, rfl⟩ := List.mem_map.mp hr
            have hxg : Obj.get (mkStoredItem isP x t1) kp = Obj.get x kp :=
              mkStoredItem_get_kp isP x t1 kp hkp1 hkp2
            have hne : (Obj.get (mkStoredItem isP x t1) kp == some k) = false := by
              rw [hxg]
              simp only [beq_eq_false_iff_ne]
              intro hc
              have hmem2 : Obj.get it kp ∈ rest.map (fun y => Obj.get y kp) := by
                rw [hk, ← hc]
                exact List.mem_map_of_mem (fun y => Obj.get y kp) hx
              exact hget.1 hmem2
            simp [hne]
          calc (rest.map (fun x => mkStoredItem isP x t1)).map
                (fun r => if Obj.get r kp == some k then mkStoredItem isP it t2 else r)
              = (rest.map (fun x => mkStoredItem isP x t1)).map id := List.map_congr_left hpt
            _ = rest.map (fun x => mkStoredItem isP x t1) := List.map_id _
        rw [hdonemap, hheadmap, hrestmap]
      -- step the loop and use the induction hypothesis
      rw [List.map_cons]
      rw [pullItems_cons_update ha hk (hput ▸ hu)]
      have hassemble : done ++ mkStoredItem isP it t2 ::
          rest.map (fun x => mkStoredItem isP x t1) =
          (done ++ [mkStoredItem isP it t2]) ++ rest.map (fun x => mkStoredItem isP x t1) := by
        simp
      rw [hassemble]
      have ihres := ih (done ++ [mkStoredItem isP it t2])
        (fun x hx => hsome x (List.mem_cons_of_mem it hx))
        hget.2
        (fun x hx => hni x (List.mem_cons_of_mem it hx))
        (fun x hx => hts x (List.mem_cons_of_mem it hx))
        (fun x hx => hsi x (List.mem_cons_of_mem it hx))
        (by
          intro x hx k2 hk2
          rw [hasKey_append, hdone x (List.mem_cons_of_mem it hx) k2 hk2]
          have hne : (Obj.get (mkStoredItem isP it t2) kp == some k2) = false := by
            rw [hmk2]
            simp only [beq_eq_false_iff_ne]
            intro hc
            have hxk : Obj.get x kp = some k := by
              rw [hk2]
              injection hc with hc2
              rw [hc2]
            have hmem2 : Obj.get it kp ∈ rest.map (fun y => Obj.get y kp) := by
              rw [hk, ← hxk]
              exact List.mem_map_of_mem (fun y => Obj.get y kp) hx
            exact hget.1 hmem2
          simp [hasKey, hne])
      rw [ihres]
      simp

-- ═══════════════════════════════════════════════════════════════════
-- Claim theorems
-- ═══════════════════════════════════════════════════════════════════

/-- Claim C1, counterexample. Queue drain is not fail-fast: with writes
A, B, C queued in creation order and delivery of B failing, syncOrders
delivers A, leaves B queued, and then also delivers C, so the store
afterwards holds only B. The claim demands that C stay queued, but C is
not in the remaining queue. -/
theorem syncOrders_failfast_counterexample :
    syncOrders [ordA, ordB, ordC] (fun i => i != 2) = [ordB] ∧
    ordC ∉ syncOrders [ordA, ordB, ordC] (fun i => i != 2) := by
  decide

/-- Claim C1, amended. The drain of the pending-orders queue attempts
delivery one at a time in creation order and removes each item from the
queue immediately upon its successful delivery; a delivery failure
leaves the failed item queued but the loop continues with the later
items (skip-and-continue): the queue afterwards holds exactly the items
whose delivery did not succeed, in creation order. -/
theorem syncOrders_skip_and_continue (orders : List QueuedOrder)
    (delivered : Nat → Bool) :
    syncOrders orders delivered = orders.filter (fun o => !(delivered o.id)) := by
  unfold syncOrders
  rw [syncOrdersLoop_eq_filter]
  refine List.filter_congr ?_
  intro x hx
  have hmem : (orders.map QueuedOrder.id).contains x.id = true := by
    have : x.id ∈ orders.map QueuedOrder.id := List.mem_map_of_mem QueuedOrder.id hx
    exact List.elem_eq_true_of_mem this
  rw [hmem]
  simp

/-- Claim C2, counterexample. The v2.1 activate handler deletes the
images strategy cache, a namespace the running version is writing to: it
starts with the prefix and differs from the single precache namespace
CACHE_NAME, so the filter selects it for deletion. -/
theorem activate_deletes_strategy_caches :
    activateDeleteV21 [cacheNameV21, cachePfxV21 ++ "-images"] =
      [cachePfxV21 ++ "-images"] ∧
    (cachePfxV21 ++ "-images") ∈ strategyCachesV21 := by
  decide

/-- Claim C2, amended. In the v2.0 worker, activation deletes exactly
the cache names that start with the prefix and are not among the five
namespaces of the current CACHES object, and never deletes a namespace
of the current version. In the v2.1 worker, activation deletes exactly
the cache names that start with the prefix and differ from the single
CACHE_NAME namespace, which includes the strategy-specific namespaces
the fetch strategies write to. -/
theorem activate_cleanup_characterization (names : List String) :
    (∀ n, n ∈ activateDeleteV20 names ↔
      n ∈ names ∧ strStartsWith n cachePfxV20 = true ∧ n ∉ cachesV20) ∧
    (∀ n, n ∈ cachesV20 → n ∉ activateDeleteV20 names) ∧
    (∀ n, n ∈ activateDeleteV21 names ↔
      n ∈ names ∧ strStartsWith n cachePfxV21 = true ∧ n ≠ cacheNameV21) := by
  refine ⟨?_, ?_, ?_⟩
  · intro n
    unfold activateDeleteV20
    rw [List.mem_filter]
    simp [List.elem_eq_mem]
  · intro n hmem hdel
    unfold activateDeleteV20 at hdel
    rw [List.mem_filter] at hdel
    have := hdel.2
    simp [List.elem_eq_mem, hmem] at this
  · intro n
    unfold activateDeleteV21
    rw [List.mem_filter]
    simp

/-- Claim C2, witness: the static namespace of the current v2.0 version
is never deleted by the v2.0 activation. -/
theorem activate_cleanup_witness :
    cacheStaticV20 ∉ activateDeleteV20 [cacheStaticV20] :=
  (activate_cleanup_characterization [cacheStaticV20]).2.1 cacheStaticV20 (by decide)

/-- Claim C3, counterexample. The query las occurs only as a proper
substring of the word glass, no index token equals it, yet search
returns the record: matching is substring-of-token, not token-level. -/
theorem search_substring_counterexample :
    Store.search [pGlass] "las" = [pGlass] ∧
    indexTerms pGlass = ["glass", "cup"] ∧
    "las" ∉ indexTerms pGlass := by
  decide

/-- Claim C3, amended. Search is substring-of-token, case-insensitive
matching: a record is returned exactly when one of its derived
lower-cased, space-split, de-duplicated index tokens contains the
lower-cased trimmed query as a substring; in particular a record one of
whose tokens equals the query is always returned, but a query occurring
inside a longer token also matches. -/
theorem search_token_characterization :
    (∀ (ps : List Obj) (q : String) (p : Obj),
      p ∈ Store.search ps q ↔
        p ∈ ps ∧ ∃ t ∈ indexTerms p,
          strContainsJS t (jsTrim (strToLower q)) = true) ∧
    (∀ (ps : List Obj) (q : String) (p : Obj),
      p ∈ ps → jsTrim (strToLower q) ∈ indexTerms p → p ∈ Store.search ps q) := by
  constructor
  · intro ps q p
    unfold Store.search
    rw [List.mem_filter]
    simp [List.any_eq_true]
  · intro ps q p hp ht
    unfold Store.search
    rw [List.mem_filter]
    refine ⟨hp, ?_⟩
    refine List.any_eq_true.mpr ⟨jsTrim (strToLower q), ht, ?_⟩
    exact strContainsJS_self _

/-- Claim C3, witness: a record whose token list contains the exact
query glass is returned by search. -/
theorem search_token_witness : pGlass ∈ Store.search [pGlass] "glass" :=
  search_token_characterization.2 [pGlass] "glass" pGlass (by decide) (by decide)

/-- Claim C4, counterexample. In the v2.1 cache-first strategy, a fetch
failure with no cached entry is answered with a synthetic 404 response
instead of propagating the failure to the caller, and a cached entry
stored arbitrarily long ago (date header 0) is returned with no network
fetch at all, since that strategy performs no expiry check. -/
theorem cacheFirst_v21_counterexample :
    cacheFirst [] cacheNameV21 "u" .failure = (resp404, [], 1) ∧
    cacheFirst [(cachePfxV21 ++ "-images", [("u", ⟨200, "img", 0⟩)])]
        (cachePfxV21 ++ "-images") "u" .failure =
      (⟨200, "img", 0⟩, [(cachePfxV21 ++ "-images", [("u", ⟨200, "img", 0⟩)])], 0) := by
  refine ⟨by decide, by decide⟩

/-- Claim C4, amended. In the v2.0 cache-first strategy a cached entry
whose age is strictly below the maxAge chosen for the cache name is
returned with no network fetch; an entry at or past that age triggers
exactly one network fetch, and on fetch failure the stale entry is
returned; with no cached entry a fetch failure propagates as an error.
In the v2.1 cache-first strategy any cached entry is returned with no
fetch regardless of age, and a fetch failure with no cached entry is
answered with a synthetic 404 rather than propagated. -/
theorem cacheFirst_expiry_behavior (cache : Cache) (cacheName req : String)
    (now : Nat) (f : FetchOutcome) (s : CacheStorage) :
    (∀ c, cacheMatch cache req = some c →
      ((now : Int) - (c.date : Int) < (maxAgeForV20 cacheName : Int)) →
      cacheFirstStrategy cache cacheName req now f = ⟨.ok c, cache, 0⟩) ∧
    (∀ c, cacheMatch cache req = some c →
      ¬((now : Int) - (c.date : Int) < (maxAgeForV20 cacheName : Int)) →
      (cacheFirstStrategy cache cacheName req now f).fetchCount = 1 ∧
      (f = .failure → cacheFirstStrategy cache cacheName req now f = ⟨.ok c, cache, 1⟩)) ∧
    (cacheMatch cache req = none → f = .failure →
      cacheFirstStrategy cache cacheName req now f = ⟨.error (), cache, 1⟩) ∧
    (cacheMatch cache req = none →
      (cacheFirstStrategy cache cacheName req now f).fetchCount = 1) ∧
    (∀ c, cachesMatchAll s req = some c → cacheFirst s cacheName req f = (c, s, 0)) ∧
    (cachesMatchAll s req = none →
      cacheFirst s cacheName req .failure = (resp404, s, 1)) := by
  refine ⟨?_, ?_, ?_, ?_, ?_, ?_⟩
  · intro c hc hage
    simp [cacheFirstStrategy, hc, hage]
  · intro c hc hage
    constructor
    · cases f with
      | success r =>
        by_cases hok : r.ok <;> simp [cacheFirstStrategy, hc, hage, hok]
      | failure => simp [cacheFirstStrategy, hc, hage]
    · intro hf
      subst hf
      simp [cacheFirstStrategy, hc, hage]
  · intro hc hf
    subst hf
    simp [cacheFirstStrategy, hc]
  · intro hc
    cases f with
    | success r =>
      by_cases hok : r.ok <;> simp [cacheFirstStrategy, hc, hok]
    | failure => simp [cacheFirstStrategy, hc]
  · intro c hc
    simp [cacheFirst, hc]
  · intro hc
    simp [cacheFirst, hc]

/-- Claim C4, witness: a cached image entry aged 5 milliseconds is
served directly with zero network fetches. -/
theorem cacheFirst_expiry_witness :
    cacheFirstStrategy [("u", ⟨200, "img", 0⟩)] cacheImagesV20 "u" 5 .failure =
      ⟨.ok ⟨200, "img", 0⟩, [("u", ⟨200, "img", 0⟩)], 0⟩ :=
  (cacheFirst_expiry_behavior [("u", ⟨200, "img", 0⟩)] cacheImagesV20 "u" 5 .failure []).1
    ⟨200, "img", 0⟩ (by decide) (by decide)

/-- Claim C5, counterexample. The DYNAMIC namespace has a configured
ceiling of 50 items, yet a network-first insert into a dynamic cache
already holding 50 entries leaves 51 entries: the network-first write
path never invokes eviction, so the namespace exceeds its own ceiling. -/
theorem networkFirst_no_eviction_counterexample :
    dyn50.length = cacheLimitDynamic ∧
    (networkFirstStrategy dyn50 "zz" false (.success ⟨200, "new", 7⟩)).2.length =
      cacheLimitDynamic + 1 := by
  decide

/-- Claim C5, amended. Size-bounded eviction runs only on the
cache-first insert path and always with the IMAGES ceiling: after a
successful 2xx fetch the strategy stores the entry and trims the cache
to at most 100 items, deleting the oldest-inserted entries first, so a
sequence of fresh-key inserts through this path leaves exactly the
most-recently-inserted min(total, ceiling) entries in insertion order;
namespaces written by other strategies are not size-bounded. -/
theorem cacheFirst_path_eviction :
    (∀ (cache : Cache) (cacheName req : String) (now : Nat) (r : Response),
      cacheMatch cache req = none → r.ok = true →
      (cacheFirstStrategy cache cacheName req now (.success r)).cacheAfter =
        limitCacheSize (cachePut cache req r) cacheLimitImages) ∧
    (∀ (xs : List (String × Response)) (c : Cache) (m : Nat),
      (cacheKeys c ++ xs.map Prod.fst).Nodup → c.length ≤ m →
      insertAll c xs m = (c ++ xs).drop (c.length + xs.length - m) ∧
      (insertAll c xs m).length = min (c.length + xs.length) m) := by
  constructor
  · intro cache cacheName req now r hc hok
    simp [cacheFirstStrategy, hc, hok]
  · intro xs c m hn hc
    have hmain := insertAll_spec xs c m hn hc
    refine ⟨hmain, ?_⟩
    rw [hmain, List.length_drop, List.length_append]
    omega

/-- Claim C5, witness: inserting two fresh keys through the
insert-and-evict cycle with ceiling 1 keeps exactly the single
most-recently-inserted entry. -/
theorem cacheFirst_path_eviction_witness :
    insertAll [] [("a", ⟨200, "x", 0⟩), ("b", ⟨200, "y", 0⟩)] 1 =
      [("b", ⟨200, "y", 0⟩)] := by
  have h := cacheFirst_path_eviction.2 [("a", ⟨200, "x", 0⟩), ("b", ⟨200, "y", 0⟩)] [] 1
    (by decide) (by decide)
  simpa using h.1

/-- Claim C6, counterexample. In the v2.1 stale-while-revalidate
strategy a background fetch that succeeds with status 201, a 2xx
success, does not update the cache: the write gate there is status
equal to 200 exactly, so the update is not if and only if 2xx. -/
theorem swr_status_counterexample :
    (staleWhileRevalidate [("pvt-pwa-assets", [])] "pvt-pwa-assets" "a"
      (.success ⟨201, "created", 0⟩)).2 = [("pvt-pwa-assets", [])] ∧
    Response.ok ⟨201, "created", 0⟩ = true ∧
    putInCache [("pvt-pwa-assets", [])] "pvt-pwa-assets" "a" ⟨201, "created", 0⟩ ≠
      [("pvt-pwa-assets", [])] := by
  decide

/-- Claim C6, amended. Stale-while-revalidate returns a cached entry
immediately when present, even when the concurrent fetch fails; with no
cached entry the caller receives the outcome of the in-flight fetch
(the swallowed failure resolves to no response). The cache is updated by
the background fetch if and only if it succeeds, with the 2xx gate
(Response.ok) in the v2.0 worker but with the stricter status equal to
200 gate in the v2.1 worker. -/
theorem swr_behavior (cache : Cache) (req : String) (f : FetchOutcome)
    (s : CacheStorage) (nm : String) :
    (∀ c, cacheMatch cache req = some c →
      (staleWhileRevalidateStrategy cache req f).1 = some c) ∧
    (cacheMatch cache req = none → ∀ r, f = .success r →
      (staleWhileRevalidateStrategy cache req f).1 = some r) ∧
    (cacheMatch cache req = none → f = .failure →
      (staleWhileRevalidateStrategy cache req f).1 = none) ∧
    (∀ r, f = .success r → r.ok = true →
      (staleWhileRevalidateStrategy cache req f).2 = cachePut cache req r) ∧
    (∀ r, f = .success r → r.ok = false →
      (staleWhileRevalidateStrategy cache req f).2 = cache) ∧
    (f = .failure → (staleWhileRevalidateStrategy cache req f).2 = cache) ∧
    (∀ c, cachesMatchAll s req = some c →
      (staleWhileRevalidate s nm req f).1 = some c) ∧
    (∀ r, f = .success r → r.status = 200 →
      (staleWhileRevalidate s nm req f).2 = putInCache s nm req r) ∧
    (∀ r, f = .success r → r.status ≠ 200 →
      (staleWhileRevalidate s nm req f).2 = s) ∧
    (f = .failure → (staleWhileRevalidate s nm req f).2 = s) := by
  refine ⟨?_, ?_, ?_, ?_, ?_, ?_, ?_, ?_, ?_, ?_⟩
  · intro c hc
    cases f with
    | success r =>
      by_cases hok : r.ok <;> simp [staleWhileRevalidateStrategy, hc, hok]
    | failure => simp [staleWhileRevalidateStrategy, hc]
  · intro hc r hf
    subst hf
    by_cases hok : r.ok <;> simp [staleWhileRevalidateStrategy, hc, hok]
  · intro hc hf
    subst hf
    simp [staleWhileRevalidateStrategy, hc]
  · intro r hf hok
    subst hf
    cases hc : cacheMatch cache req <;> simp [staleWhileRevalidateStrategy, hc, hok]
  · intro r hf hok
    subst hf
    cases hc : cacheMatch cache req <;> simp [staleWhileRevalidateStrategy, hc, hok]
  · intro hf
    subst hf
    cases hc : cacheMatch cache req <;> simp [staleWhileRevalidateStrategy, hc]
  · intro c hc
    cases f with
    | success r =>
      by_cases hok : r.status == 200 <;> simp [staleWhileRevalidate, hc, hok]
    | failure => simp [staleWhileRevalidate, hc]
  · intro r hf hok
    subst hf
    cases hc : cachesMatchAll s req <;> simp [staleWhileRevalidate, hc, hok]
  · intro r hf hok
    subst hf
    cases hc : cachesMatchAll s req <;> simp [staleWhileRevalidate, hc, hok]
  · intro hf
    subst hf
    cases hc : cachesMatchAll s req <;> simp [staleWhileRevalidate, hc]

/-- Claim C6, witness: with a cached entry present and the background
fetch failing, the caller still receives the cached entry. -/
theorem swr_behavior_witness :
    (staleWhileRevalidateStrategy [("u", ⟨200, "x", 0⟩)] "u" .failure).1 =
      some ⟨200, "x", 0⟩ :=
  (swr_behavior [("u", ⟨200, "x", 0⟩)] "u" .failure [] "nm").1 ⟨200, "x", 0⟩ (by decide)

/-- Claim C7, counterexample. A page navigation whose network fetch
fails, with an empty cache, receives the synthetic 503 response, not the
designated offline fallback document: the fallback is served only when
it is itself cached, and here it is absent. -/
theorem networkFirst_offline_missing_counterexample :
    networkFirstStrategy [] "/page" true .failure = (resp503, []) ∧
    cacheMatch ([] : Cache) "/offline.html" = none ∧
    resp503.status = 503 := by
  decide

/-- Claim C7, amended. When the network fetch of the v2.0 network-first
strategy fails, the caller always receives a response: the cached entry
when present; else, for a page navigation with the offline fallback
document cached, that document; in every remaining case the synthetic
503 response. -/
theorem networkFirst_fallback_behavior (cache : Cache) (req : String) (nav : Bool) :
    (∀ c, cacheMatch cache req = some c →
      networkFirstStrategy cache req nav .failure = (c, cache)) ∧
    (cacheMatch cache req = none → nav = true →
      ∀ off, cacheMatch cache "/offline.html" = some off →
      networkFirstStrategy cache req nav .failure = (off, cache)) ∧
    (cacheMatch cache req = none → cacheMatch cache "/offline.html" = none →
      networkFirstStrategy cache req nav .failure = (resp503, cache)) ∧
    (cacheMatch cache req = none → nav = false →
      networkFirstStrategy cache req nav .failure = (resp503, cache)) := by
  refine ⟨?_, ?_, ?_, ?_⟩
  · intro c hc
    simp [networkFirstStrategy, hc]
  · intro hc hnav off hoff
    subst hnav
    simp [networkFirstStrategy, hc, hoff]
  · intro hc hoff
    cases nav <;> simp [networkFirstStrategy, hc, hoff]
  · intro hc hnav
    subst hnav
    simp [networkFirstStrategy, hc]

/-- Claim C7, witness: with a cached entry for the request, the failed
fetch is answered from the cache. -/
theorem networkFirst_fallback_witness :
    networkFirstStrategy [("u", ⟨200, "x", 0⟩)] "u" false .failure =
      (⟨200, "x", 0⟩, [("u", ⟨200, "x", 0⟩)]) :=
  (networkFirst_fallback_behavior [("u", ⟨200, "x", 0⟩)] "u" false).1
    ⟨200, "x", 0⟩ (by decide)

-- ═══════════════════════════════════════════════════════════════════
-- Helper lemmas: SyncEngine.pull stepping equations
-- ═══════════════════════════════════════════════════════════════════

theorem pull_arr_ok {isP : Bool} {kp : String} {st : SyncState} {items : List Obj}
    {now : Nat} {col2 : List Obj}
    (hpi : pullItems isP kp st.col items now = (col2, none)) :
    SyncEngine.pull isP kp st (.arr items) now =
      ({ col := col2, lastSync := some now }, none) := by
  conv_lhs => unfold SyncEngine.pull
  show (match pullItems isP kp st.col items now with
        | (c2, none) => (({ col := c2, lastSync := some now } : SyncState), none)
        | (c2, some e) => (({ col := c2, lastSync := st.lastSync } : SyncState), some e)) = _
  rw [hpi]

theorem pull_arr_err {isP : Bool} {kp : String} {st : SyncState} {items : List Obj}
    {now : Nat} {col2 : List Obj} {e : DBError}
    (hpi : pullItems isP kp st.col items now = (col2, some e)) :
    SyncEngine.pull isP kp st (.arr items) now =
      ({ col := col2, lastSync := st.lastSync }, some e) := by
  conv_lhs => unfold SyncEngine.pull
  show (match pullItems isP kp st.col items now with
        | (c2, none) => (({ col := c2, lastSync := some now } : SyncState), none)
        | (c2, some e2) => (({ col := c2, lastSync := st.lastSync } : SyncState), some e2)) = _
  rw [hpi]

theorem pull_single_err {isP : Bool} {kp : String} {st : SyncState} {it : Obj}
    {now : Nat} {e : DBError}
    (ha : Store.add isP kp st.col it now = .error e) :
    SyncEngine.pull isP kp st (.single it) now =
      ({ col := st.col, lastSync := st.lastSync }, some e) := by
  conv_lhs => unfold SyncEngine.pull
  show (match Store.add isP kp st.col it now with
        | Except.ok c2 => (({ col := c2, lastSync := some now } : SyncState), none)
        | Except.error e2 => (({ col := st.col, lastSync := st.lastSync } : SyncState), some e2)) = _
  rw [ha]

theorem updatedRecord_get_other (isP : Bool) (item u : Obj) (now : Nat) (f : String)
    (hf1 : f ≠ "timestamp") (hf2 : isP = true → f ≠ "searchIndex") :
    Obj.get (updatedRecord isP item u now) f = Obj.get (Obj.merge item u) f := by
  cases isP with
  | false =>
    show Obj.get (Obj.set (Obj.merge item u) "timestamp" (Val.num now)) f = _
    exact Obj.get_set_ne _ _ _ _ hf1
  | true =>
    show Obj.get (Obj.set (Obj.set (Obj.merge item u) "timestamp" (Val.num now)) "searchIndex"
      (Val.arr (buildSearchIndex (Obj.set (Obj.merge item u) "timestamp" (Val.num now))))) f = _
    rw [Obj.get_set_ne _ _ _ _ (hf2 rfl), Obj.get_set_ne _ _ _ _ hf1]

-- ═══════════════════════════════════════════════════════════════════
-- Claims C8, C9, C10
-- ═══════════════════════════════════════════════════════════════════

/-- Claim C8, counterexample. A non-array remote snapshot holding a
single item whose key already exists goes through the plain add with no
fallback to update: the pull fails with the ConstraintError and the
watermark stays unchanged, while the very same item wrapped in an array
snapshot is upserted successfully. -/
theorem pull_single_counterexample :
    SyncEngine.pull true "ProductID" ⟨[recP1], some 10⟩ (.single itemP1) 50 =
      (⟨[recP1], some 10⟩, some .constraintError) ∧
    (SyncEngine.pull true "ProductID" ⟨[recP1], some 10⟩ (.arr [itemP1]) 50).2 =
      none := by
  refine ⟨by decide, by decide⟩

/-- Claim C8, amended. For an array snapshot, pull attempts add for each
item, falls back to update with the full item exactly when add fails
with the duplicate-key ConstraintError, and aborts on any other
failure; the lastSync watermark is set to the pull time if and only if
every item was stored without error, in which case every item key is
present in the resulting collection, and on any failure the watermark
is left unchanged. For a non-array snapshot the item is passed to a
plain add whose every failure, the duplicate-key one included, fails
the pull with the watermark unchanged. -/
theorem pull_upsert_watermark (isP : Bool) (kp : String) (st : SyncState)
    (items : List Obj) (now : Nat)
    (hkp1 : kp ≠ "timestamp") (hkp2 : kp ≠ "searchIndex")
    (hni : ∀ it ∈ items, (Obj.keys it).Nodup) :
    ((SyncEngine.pull isP kp st (.arr items) now).2 = none →
      (SyncEngine.pull isP kp st (.arr items) now).1.lastSync = some now ∧
      ∀ it ∈ items, ∀ k, Obj.get it kp = some k →
        hasKey kp (SyncEngine.pull isP kp st (.arr items) now).1.col k = true) ∧
    (∀ e, (SyncEngine.pull isP kp st (.arr items) now).2 = some e →
      (SyncEngine.pull isP kp st (.arr items) now).1.lastSync = st.lastSync) ∧
    (∀ it e, Store.add isP kp st.col it now = .error e →
      SyncEngine.pull isP kp st (.single it) now =
        ({ col := st.col, lastSync := st.lastSync }, some e)) := by
  refine ⟨?_, ?_, ?_⟩
  · intro hnone
    rcases hpi : pullItems isP kp st.col items now with ⟨col2, err⟩
    cases err with
    | none =>
      rw [pull_arr_ok hpi]
      refine ⟨rfl, ?_⟩
      intro it hit k hk
      exact pullItems_stores_all isP kp now hkp1 hkp2 items st.col col2 hni hpi it hit k hk
    | some e =>
      rw [pull_arr_err hpi] at hnone
      cases hnone
  · intro e he
    rcases hpi : pullItems isP kp st.col items now with ⟨col2, err⟩
    cases err with
    | none =>
      rw [pull_arr_ok hpi] at he
      cases he
    | some e2 =>
      rw [pull_arr_err hpi]
  · intro it e ha
    exact pull_single_err ha

/-- Claim C8, witness: a pull of a one-item array snapshot into an empty
collection succeeds and advances the watermark to the pull time. -/
theorem pull_upsert_watermark_witness :
    (SyncEngine.pull false "key" ⟨[], none⟩ (.arr [[("key", Val.str "a")]]) 5).1.lastSync =
      some 5 := by
  have h := pull_upsert_watermark false "key" ⟨[], none⟩ [[("key", Val.str "a")]] 5
    (by decide) (by decide) (by decide)
  exact (h.1 (by decide)).1

/-- Claim C9, counterexample. A successful pull of a one-item snapshot
into an empty products collection, followed immediately by a second
successful pull of the identical snapshot at a later clock, keeps the
record count but changes the stored record: its write timestamp is
refreshed, so the record contents are not left unchanged. -/
theorem pull_twice_counterexample :
    (SyncEngine.pull true "ProductID" ⟨[], none⟩ (.arr [itemP1]) 100).2 = none ∧
    (SyncEngine.pull true "ProductID"
      (SyncEngine.pull true "ProductID" ⟨[], none⟩ (.arr [itemP1]) 100).1
      (.arr [itemP1]) 200).2 = none ∧
    (SyncEngine.pull true "ProductID"
      (SyncEngine.pull true "ProductID" ⟨[], none⟩ (.arr [itemP1]) 100).1
      (.arr [itemP1]) 200).1.col.length =
      (SyncEngine.pull true "ProductID" ⟨[], none⟩ (.arr [itemP1]) 100).1.col.length ∧
    (SyncEngine.pull true "ProductID"
      (SyncEngine.pull true "ProductID" ⟨[], none⟩ (.arr [itemP1]) 100).1
      (.arr [itemP1]) 200).1.col ≠
      (SyncEngine.pull true "ProductID" ⟨[], none⟩ (.arr [itemP1]) 100).1.col := by
    refine ⟨by decide, by decide, by decide, by decide⟩

/-- Claim C9, amended. Pull is idempotent up to the write timestamp: for
a well-formed snapshot (items with pairwise distinct present keys,
duplicate-free field names, and no reserved derived fields) pulled into
an empty collection, a second pull of the identical snapshot succeeds,
keeps the record count, and leaves every record unchanged except that
its timestamp field is refreshed to the second pull time (the derived
search index is recomputed to the same value): the second collection is
exactly the first one with each record timestamp rewritten. -/
theorem pull_idempotent_up_to_timestamp (isP : Bool) (kp : String) (items : List Obj)
    (t1 t2 : Nat)
    (hkp1 : kp ≠ "timestamp") (hkp2 : kp ≠ "searchIndex")
    (hsome : ∀ it ∈ items, (Obj.get it kp).isSome = true)
    (hget : (items.map (fun it => Obj.get it kp)).Nodup)
    (hni : ∀ it ∈ items, (Obj.keys it).Nodup)
    (hts : ∀ it ∈ items, Obj.get it "timestamp" = none)
    (hsi : ∀ it ∈ items, Obj.get it "searchIndex" = none) :
    (SyncEngine.pull isP kp ⟨[], none⟩ (.arr items) t1).2 = none ∧
    (SyncEngine.pull isP kp (SyncEngine.pull isP kp ⟨[], none⟩ (.arr items) t1).1
      (.arr items) t2).2 = none ∧
    (SyncEngine.pull isP kp (SyncEngine.pull isP kp ⟨[], none⟩ (.arr items) t1).1
      (.arr items) t2).1.col =
      ((SyncEngine.pull isP kp ⟨[], none⟩ (.arr items) t1).1.col).map
        (fun r => Obj.set r "timestamp" (Val.num t2)) ∧
    (SyncEngine.pull isP kp (SyncEngine.pull isP kp ⟨[], none⟩ (.arr items) t1).1
      (.arr items) t2).1.col.length =
      (SyncEngine.pull isP kp ⟨[], none⟩ (.arr items) t1).1.col.length ∧
    (∀ f : String, f ≠ "timestamp" → ∀ i : Nat,
      ((SyncEngine.pull isP kp (SyncEngine.pull isP kp ⟨[], none⟩ (.arr items) t1).1
        (.arr items) t2).1.col[i]?).map (fun r => Obj.get r f) =
      (((SyncEngine.pull isP kp ⟨[], none⟩ (.arr items) t1).1.col)[i]?).map
        (fun r => Obj.get r f)) := by
  have hfresh1 : ∀ it ∈ items, ∀ k, Obj.get it kp = some k →
      hasKey kp (SyncState.col ⟨[], none⟩) k = false := by
    intro it _ k _
    rfl
  have hp1 := pullItems_fresh isP kp t1 hkp1 hkp2 items (SyncState.col ⟨[], none⟩)
    hsome hget hfresh1
  have hpull1 := pull_arr_ok hp1
  have hcol1 : (SyncEngine.pull isP kp ⟨[], none⟩ (.arr items) t1).1.col =
      items.map (fun it => mkStoredItem isP it t1) := by
    rw [hpull1]
    simp
  have hp2 := pullItems_refresh isP kp t1 t2 hkp1 hkp2 items [] hsome hget hni hts hsi
    (by intro it _ k _; rfl)
  have hp2' : pullItems isP kp
      (SyncState.col (SyncEngine.pull isP kp ⟨[], none⟩ (.arr items) t1).1) items t2 =
      (items.map (fun it => mkStoredItem isP it t2), none) := by
    rw [hcol1]
    simpa using hp2
  have hpull2 := pull_arr_ok hp2'
  have hcol2 : (SyncEngine.pull isP kp (SyncEngine.pull isP kp ⟨[], none⟩ (.arr items) t1).1
      (.arr items) t2).1.col = items.map (fun it => mkStoredItem isP it t2) := by
    rw [hpull2]
  have hmapset : items.map (fun it => mkStoredItem isP it t2) =
      (items.map (fun it => mkStoredItem isP it t1)).map
        (fun r => Obj.set r "timestamp" (Val.num t2)) := by
    rw [List.map_map]
    refine (List.map_congr_left ?_).symm
    intro it hit
    show Obj.set (mkStoredItem isP it t1) "timestamp" (Val.num t2) = mkStoredItem isP it t2
    exact mkStoredItem_set_ts isP it t1 t2 (hts it hit) (hsi it hit)
  refine ⟨by rw [hpull1], by rw [hpull2], ?_, ?_, ?_⟩
  · rw [hcol2, hcol1, hmapset]
  · rw [hcol2, hcol1]
    simp
  · intro f hf i
    rw [hcol2, hcol1, hmapset, List.getElem?_map]
    cases hx : (items.map (fun it => mkStoredItem isP it t1))[i]? with
    | none => rfl
    | some r =>
      simp only [Option.map_some', Option.map_map]
      have : Obj.get (Obj.set r "timestamp" (Val.num t2)) f = Obj.get r f :=
        Obj.get_set_ne r "timestamp" f (Val.num t2) hf
      simp [this]

/-- Claim C9, witness: the concrete two-pull run of the one-item
snapshot at clocks 100 and 200 yields as second collection exactly the
first collection with the timestamps rewritten to 200. -/
theorem pull_idempotent_witness :
    (SyncEngine.pull true "ProductID"
      (SyncEngine.pull true "ProductID" ⟨[], none⟩ (.arr [itemP1]) 100).1
      (.arr [itemP1]) 200).1.col =
      ((SyncEngine.pull true "ProductID" ⟨[], none⟩ (.arr [itemP1]) 100).1.col).map
        (fun r => Obj.set r "timestamp" (Val.num 200)) := by
  have h := pull_idempotent_up_to_timestamp true "ProductID" [itemP1] 100 200
    (by decide) (by decide) (by decide) (by decide) (by decide) (by decide) (by decide)
  exact h.2.2.1

/-- Claim C10, counterexample. Updating the record at key p1 with a
partial-fields object that reassigns the key field to p2 stores the
updated record under the key p2: the record at p1 is left entirely
unchanged and the record at the other key p2 is overwritten, so a
record with a key other than the updated one is changed. -/
theorem update_key_reassignment_counterexample :
    Store.update true "ProductID" [recP1, recP2] (Val.str "p1")
      [("ProductID", Val.str "p2")] 99 =
      .ok [recP1,
        [("ProductID", Val.str "p2"), ("timestamp", Val.num 99),
         ("searchIndex", Val.arr [])]] ∧
    ([("ProductID", Val.str "p2"), ("timestamp", Val.num 99),
      ("searchIndex", Val.arr [])] : Obj) ≠ recP2 := by
  refine ⟨by decide, by decide⟩

/-- Claim C10, amended. For every collection, every record found at key
k, and every partial-fields object u with duplicate-free field names
that does not reassign the key field, update stores at the position of
each record carrying key k a record that has the value from u for each
field named in u, keeps the previous value of every other field except
the write timestamp, which is refreshed, and, for the products
collection, the derived search index, which is recomputed; every record
at a position whose key differs from k is unchanged, and the collection
length is unchanged. -/
theorem update_frame_property (isP : Bool) (kp : String) (col : List Obj) (key : Val)
    (u : Obj) (now : Nat) (item : Obj)
    (hfind : col.find? (fun r => Obj.get r kp == some key) = some item)
    (hukey : Obj.get u kp = none ∨ Obj.get u kp = some key)
    (hnu : (Obj.keys u).Nodup)
    (hkp1 : kp ≠ "timestamp") (hkp2 : kp ≠ "searchIndex") :
    Store.update isP kp col key u now = .ok
      (col.map (fun r => if Obj.get r kp == some key then updatedRecord isP item u now
        else r)) ∧
    Obj.get (updatedRecord isP item u now) "timestamp" = some (Val.num now) ∧
    (isP = true → Obj.get (updatedRecord isP item u now) "searchIndex" =
      some (Val.arr (buildSearchIndex
        (Obj.set (Obj.merge item u) "timestamp" (Val.num now))))) ∧
    (∀ f : String, f ≠ "timestamp" → ¬(isP = true ∧ f = "searchIndex") →
      Obj.get (updatedRecord isP item u now) f =
        (match Obj.get u f with
         | some v => some v
         | none => Obj.get item f)) ∧
    (∀ i : Nat, ∀ r, col[i]? = some r → Obj.get r kp ≠ some key →
      (col.map (fun r => if Obj.get r kp == some key then updatedRecord isP item u now
        else r))[i]? = some r) ∧
    (col.map (fun r => if Obj.get r kp == some key then updatedRecord isP item u now
      else r)).length = col.length := by
  have hitem_key : Obj.get item kp = some key := by
    have := List.find?_some hfind
    simpa using this
  have hitem_mem : item ∈ col := List.mem_of_find?_eq_some hfind
  have hhk : hasKey kp col key = true :=
    List.any_eq_true.mpr ⟨item, hitem_mem, by simp [hitem_key]⟩
  have hupd_key : Obj.get (updatedRecord isP item u now) kp = some key := by
    rw [updatedRecord_get_kp isP item u now kp hkp1 hkp2, Obj.merge_get item u kp hnu]
    rcases hukey with h | h
    · rw [h]
      show Obj.get item kp = some key
      exact hitem_key
    · rw [h]
  refine ⟨?_, updatedRecord_get_ts isP item u now, ?_, ?_, ?_, by simp⟩
  · rw [update_of_found hfind]
    congr 1
    unfold putRecord
    rw [hupd_key]
    show (if hasKey kp col key then
        List.map (fun r => if Obj.get r kp == some key then updatedRecord isP item u now
          else r) col
      else col ++ [updatedRecord isP item u now]) = _
    rw [if_pos hhk]
  · intro hisP
    subst hisP
    exact updatedRecord_get_si item u now
  · intro f hf1 hf2
    have hf2' : isP = true → f ≠ "searchIndex" := by
      intro hp hc
      exact hf2 ⟨hp, hc⟩
    rw [updatedRecord_get_other isP item u now f hf1 hf2', Obj.merge_get item u f hnu]
  · intro i r hir hne
    rw [List.getElem?_map, hir]
    simp only [Option.map_some']
    have : (Obj.get r kp == some key) = false := by
      simp only [beq_eq_false_iff_ne]
      exact hne
    simp [this]

/-- Claim C10, witness: updating the single record at key p1 with a
partial-fields object not touching the key succeeds. -/
theorem update_frame_witness :
    (Store.update true "ProductID" [recP1] (Val.str "p1")
      [("MoTa", Val.str "dep")] 42).isOk = true := by
  obtain ⟨h1, _⟩ := update_frame_property true "ProductID" [recP1] (Val.str "p1")
    [("MoTa", Val.str "dep")] 42 recP1 (by decide) (Or.inl (by decide)) (by decide)
    (by decide) (by decide)
  rw [h1]
  rfl
